import Mathlib

/-!
Verification of the wykop-index repository's ingestion-and-orchestration core.

The JavaScript sources are shallowly embedded as executable Lean definitions:

* `Post.*` embeds the mention-answering function (src/unnamed/part_000):
  its `retryWithBackoff` escalation over (credential, model, tool-set) rows,
  the notification filter and context-bundle builder, and the publish/persist
  loop for generated replies.
* `Index.*` embeds the sentiment function (src/unnamed/part_002): its
  `retryWithBackoff` with the shared mutable `model` variable, the
  `validateSchema` checker over a JavaScript value model, `getTopUser`,
  the windowed feed scan that collects `recentEntries`, and the
  `parseInt`-based sentiment persistence.
* Shared string helpers model the JavaScript string operations used by
  `cleanJsonResponse` (identical in both files), with `JSON.parse` kept
  abstract as a parameter.

JavaScript numbers are modelled as `Int`/`Nat` (all arithmetic in the embedded
fragments stays far below 2^53, so no overflow modelling is needed); `NaN` is
modelled as `none` of an `Option`; a thrown exception is `Except.error`.
-/

/-! ## Shared JavaScript string helpers -/

/-- Whitespace recognized by the model of JavaScript's `String.prototype.trim`. -/
def isJsWs (c : Char) : Bool :=
  c == ' ' || c == '\n' || c == '\t' || c == '\r'

/-- Model of JavaScript `text.trim()` over a character list: drop leading and
trailing whitespace. -/
def jsTrim (l : List Char) : List Char :=
  ((l.dropWhile isJsWs).reverse.dropWhile isJsWs).reverse

/-- Model of JavaScript `text.startsWith(p)`. -/
def jsStartsWith (p l : List Char) : Bool :=
  p.isPrefixOf l

/-- Model of JavaScript `text.endsWith(p)`. -/
def jsEndsWith (p l : List Char) : Bool :=
  p.reverse.isPrefixOf l.reverse

/-- The 7-character opening fence checked first by `cleanJsonResponse`. -/
def fenceJsonMark : List Char := "```json".data

/-- The 3-character fence mark. -/
def fenceMark : List Char := "```".data

/-- Embeds `cleanJsonResponse` (src/unnamed/part_000 lines 40-52, and the
identical definition in src/unnamed/part_002 lines 703-716): trim, strip a
leading ```` ```json ```` (7 chars) or ```` ``` ```` (3 chars), strip a
trailing ```` ``` ````, then hand the re-trimmed text to `JSON.parse`,
modelled by the abstract parameter `parse`. -/
def cleanJsonResponse {J : Type} (parse : List Char → Except String J)
    (text : List Char) : Except String J :=
  let cleaned := jsTrim text
  let cleaned :=
    if jsStartsWith fenceJsonMark cleaned then cleaned.drop 7
    else if jsStartsWith fenceMark cleaned then cleaned.drop 3
    else cleaned
  let cleaned :=
    if jsEndsWith fenceMark cleaned then cleaned.take (cleaned.length - 3)
    else cleaned
  parse (jsTrim cleaned)

/-- Wrap a payload in a plain markdown code fence, fence marks on their own
lines, as a model would emit it. -/
def wrapFencePlain (s : List Char) : List Char :=
  fenceMark ++ ('\n' :: s) ++ ('\n' :: fenceMark)

/-- Wrap a payload in a ```` ```json ```` markdown code fence. -/
def wrapFenceJson (s : List Char) : List Char :=
  fenceJsonMark ++ ('\n' :: s) ++ ('\n' :: fenceMark)

/-! ## Post: the mention-answering function (src/unnamed/part_000) -/

namespace Post

/-- The two GoogleGenAI instances of part_000: `primaryAi` (GEMINI_API_KEY)
and `backupAi` (GEMINI_BACKUP_API_KEY). -/
inductive Cred where
  | primary
  | backup
deriving DecidableEq, Repr

/-- The two tool capabilities pushed onto the `tools` array in part_000
lines 80-85. -/
inductive Tool where
  | urlContext
  | googleSearch
deriving DecidableEq, Repr

/-- Initial value of the mutable `model` variable (part_000 line 25). -/
def primaryModel : String := "gemini-2.5-flash"

/-- The `backupModel` constant of part_000 line 58. -/
def backupModel : String := "gemini-3-flash-preview"

/-- One row of the escalation: the credential, model and tool set handed to
one attempt. -/
structure AttemptConfig where
  cred : Cred
  model : String
  tools : List Tool
deriving DecidableEq, Repr

/-- Observable outcome of a `retryWithBackoff` run in part_000: the returned
or thrown value (`none` models the `undefined` a zero-iteration loop returns),
the final values of the mutable `ai`/`model` variables, the number of
`setTimeout` waits performed, the number of calls to `fn`, and the
(credential, model, tools) row used by each attempt in order. -/
structure RetryOutcome (A : Type) where
  result : Option (Except String A)
  ai : Cred
  model : String
  waits : Nat
  calls : Nat
  trace : List AttemptConfig

/-- The `switch (attempt)` of part_000 lines 60-78: attempt 2 moves to the
backup credential, attempt 3 to the primary credential with the backup model,
attempt 4 to the backup credential with the backup model; attempt 1 (and any
other value) leaves the mutable state unchanged. -/
def applySwitch (attempt : Nat) (ai : Cred) (model : String) : Cred × String :=
  match attempt with
  | 2 => (Cred.backup, model)
  | 3 => (Cred.primary, backupModel)
  | 4 => (Cred.backup, backupModel)
  | _ => (ai, model)

/-- The tools array of part_000 lines 80-85: `urlContext` always, plus
`googleSearch` exactly when the current model is `gemini-2.5-flash`. -/
def toolsFor (model : String) : List Tool :=
  [Tool.urlContext] ++ (if model == primaryModel then [Tool.googleSearch] else [])

/-- Loop body of part_000's `retryWithBackoff` (lines 55-97), with the mutable
`ai`/`model` closure state threaded explicitly and the attempt counter and a
structural fuel made explicit. `fn` receives the attempt number so a mock can
behave differently per attempt, plus the credential, model and tools the loop
hands it. -/
def retryGo {A : Type} (fn : Nat → Cred → String → List Tool → Except String A)
    (maxAttempts : Nat) : Nat → Nat → Cred → String → RetryOutcome A
  | 0, _, ai, model => ⟨none, ai, model, 0, 0, []⟩
  | fuel + 1, attempt, ai, model =>
    if attempt ≤ maxAttempts then
      let s := applySwitch attempt ai model
      let tools := toolsFor s.2
      match fn attempt s.1 s.2 tools with
      | Except.ok a => ⟨some (Except.ok a), s.1, s.2, 0, 1, [⟨s.1, s.2, tools⟩]⟩
      | Except.error e =>
        if attempt = maxAttempts then
          ⟨some (Except.error e), s.1, s.2, 0, 1, [⟨s.1, s.2, tools⟩]⟩
        else
          let r := retryGo fn maxAttempts fuel (attempt + 1) s.1 s.2
          ⟨r.result, r.ai, r.model, r.waits + 1, r.calls + 1, ⟨s.1, s.2, tools⟩ :: r.trace⟩
    else ⟨none, ai, model, 0, 0, []⟩

/-- part_000's `retryWithBackoff(fn, maxAttempts, delayMs)`: run the attempt
loop from attempt 1 with the given initial credential/model state. `delayMs`
only sets the length of each wait and is not otherwise observable. -/
def retryWithBackoff {A : Type} (fn : Nat → Cred → String → List Tool → Except String A)
    (maxAttempts : Nat) (delayMs : Nat) (ai : Cred) (model : String) : RetryOutcome A :=
  retryGo fn maxAttempts (maxAttempts + 1) 1 ai model

/-- The full set of tool capabilities (urlContext plus googleSearch). -/
def fullToolSet : List Tool := [Tool.urlContext, Tool.googleSearch]

/-- The four-row escalation table that part_000's retry helper walks through
when every attempt fails, starting from the initial `primaryAi` /
`gemini-2.5-flash` state. -/
def escalationTable : List AttemptConfig :=
  [⟨Cred.primary, primaryModel, fullToolSet⟩,
   ⟨Cred.backup, primaryModel, fullToolSet⟩,
   ⟨Cred.primary, backupModel, [Tool.urlContext]⟩,
   ⟨Cred.backup, backupModel, [Tool.urlContext]⟩]

/-! ### Notification correlator (part_000 lines 105-245) -/

/-- A comment as consumed from the Wykop API. -/
structure WComment where
  id : Nat
  username : String
  created_at : String
  votes : Nat
  content : String
  photo_url : Option String
  embed_url : Option String
deriving DecidableEq, Repr

/-- A post (entry) as consumed from the Wykop API. -/
structure WEntry where
  id : Nat
  username : String
  created_at : String
  votes : Nat
  content : String
  tags : List String
  photo_url : Option String
  embed_url : Option String
deriving DecidableEq, Repr

/-- A notification as consumed from the Wykop API. `createdInstant` is the
millisecond instant `new Date(created_at...).getTime()` of part_000 line 174;
`read` is the numeric read counter tested by `notification.read > 0`. -/
structure WNotification where
  id : Nat
  type : String
  createdInstant : Int
  read : Nat
  entry : Option WEntry
  comment : Option WComment
deriving DecidableEq, Repr

/-- Model of the helper `stripQueryParams` (part_000 line 106):
`url ? url.split('?')[0] : null`. An absent or empty (falsy) url gives null. -/
def stripQueryParams (url : Option String) : Option String :=
  match url with
  | none => none
  | some u => if u == "" then none else some ((u.splitOn "?").headD u)

/-- The filter predicate of part_000 lines 172-182: recent enough, a mention
type, unread, and the referenced entry tagged `gielda`. -/
def notificationKeep (polandOffset oneHourAgoMs : Int) (n : WNotification) : Bool :=
  let notificationTimeUTC := n.createdInstant - polandOffset
  if notificationTimeUTC < oneHourAgoMs then false
  else if n.type != "new_comment_in_entry" && n.type != "new_entry" then false
  else if n.read > 0 then false
  else
    match n.entry with
    | some e => e.tags.any (fun tag => tag == "gielda")
    | none => false

/-- `filteredNotifications` of part_000 line 172. -/
def filteredNotifications (polandOffset oneHourAgoMs : Int)
    (allNotifications : List WNotification) : List WNotification :=
  allNotifications.filter (notificationKeep polandOffset oneHourAgoMs)

/-- A parsed comment inside a context bundle (part_000 lines 109-118). -/
structure ParsedComment where
  id : Nat
  url : String
  username : String
  created_at : String
  votes : Nat
  content : String
  photo_url : Option String
  embed_url : Option String
deriving DecidableEq, Repr

/-- The post view embedded in a context bundle (part_000 lines 233-242). -/
structure ParsedPost where
  id : Nat
  url : String
  username : String
  created_at : String
  votes : Nat
  content : String
  photo_url : Option String
  embed_url : Option String
deriving DecidableEq, Repr

/-- One context bundle of `parsedNotifications` (part_000 lines 210-245). -/
structure ParsedNotification where
  questionToAnswer : Option String
  replyToUsername : Option String
  post : ParsedPost
  comments : List ParsedComment
deriving DecidableEq, Repr

/-- `parseComment` of part_000 lines 109-118. -/
def parseComment (entryId : Nat) (comment : WComment) : ParsedComment :=
  ⟨comment.id,
   "https://wykop.pl/wpis/" ++ toString entryId ++ "#" ++ toString comment.id,
   comment.username, comment.created_at, comment.votes, comment.content,
   stripQueryParams comment.photo_url, stripQueryParams comment.embed_url⟩

/-- Placeholder for the entry of a notification that has none; the filter
guarantees it is never reached on filtered notifications. -/
def defaultEntry : WEntry := ⟨0, "", "", 0, "", [], none, none⟩

/-- The body of the `filteredNotifications.map` of part_000 lines 210-245:
pick the triggering text (`questionToAnswer`) and reply target, attach the
full post and its fetched comment thread. `commentsFor` models the
`entryCommentsMap` built from the per-entry comment fetches. -/
def parseNotification (commentsFor : Nat → List WComment) (n : WNotification) :
    ParsedNotification :=
  let entry := n.entry.getD defaultEntry
  let fullComments := commentsFor entry.id
  let questionToAnswer : Option String :=
    if n.type == "new_entry" then some entry.content
    else if n.type == "new_comment_in_entry" then n.comment.map (fun c => c.content)
    else none
  let replyToUsername : Option String :=
    if n.type == "new_entry" then some entry.username
    else if n.type == "new_comment_in_entry" then n.comment.map (fun c => c.username)
    else none
  ⟨questionToAnswer, replyToUsername,
   ⟨entry.id, "https://wykop.pl/wpis/" ++ toString entry.id, entry.username,
    entry.created_at, entry.votes, entry.content,
    stripQueryParams entry.photo_url, stripQueryParams entry.embed_url⟩,
   fullComments.map (parseComment entry.id)⟩

/-- `parsedNotifications` of part_000 line 210: every notification surviving
the filter is mapped to a context bundle. -/
def parsedNotifications (commentsFor : Nat → List WComment)
    (polandOffset oneHourAgoMs : Int) (allNotifications : List WNotification) :
    List ParsedNotification :=
  (filteredNotifications polandOffset oneHourAgoMs allNotifications).map
    (parseNotification commentsFor)

/-! ### Action sequencer (part_000 lines 335-388) -/

/-- One generated reply object as consumed by the publish/persist loop. -/
structure ReplyObj where
  postId : Nat
  username : String
  url : String
  post : String
  reply : String
deriving DecidableEq, Repr

/-- Observable events of the publish/persist loop, in execution order: the
`Logged` events are the two `catch` branches of part_000 lines 382-387. -/
inductive SeqEvent where
  | publishAttempted (r : ReplyObj)
  | publishSucceeded (r : ReplyObj)
  | publishFailedLogged (r : ReplyObj) (msg : String)
  | persistAttempted (r : ReplyObj)
  | persistSucceeded (r : ReplyObj)
  | persistFailedLogged (r : ReplyObj) (msg : String)
deriving DecidableEq, Repr

/-- One iteration of the `for (const replyObj of mentionsResult)` loop
(part_000 lines 335-388): publish inside the outer `try`; only on publish
success run the inner `try` that persists; each `catch` logs and falls
through to the next iteration. -/
def processReply (publish : ReplyObj → Except String Unit)
    (persist : ReplyObj → Except String Unit) (r : ReplyObj) : List SeqEvent :=
  SeqEvent.publishAttempted r ::
    match publish r with
    | Except.error e => [SeqEvent.publishFailedLogged r e]
    | Except.ok _ =>
      SeqEvent.publishSucceeded r :: SeqEvent.persistAttempted r ::
        match persist r with
        | Except.error e => [SeqEvent.persistFailedLogged r e]
        | Except.ok _ => [SeqEvent.persistSucceeded r]

/-- The whole publish/persist loop: process the reply items in order, each in
isolation. -/
def processReplies (publish persist : ReplyObj → Except String Unit) :
    List ReplyObj → List SeqEvent
  | [] => []
  | r :: rest => processReply publish persist r ++ processReplies publish persist rest

end Post

/-! ## Index: the sentiment function (src/unnamed/part_002) -/

namespace Index

/-- Initial value of the mutable `model` variable (part_002 line 693). -/
def primaryModel : String := "gemini-3-flash-preview"

/-- The model switched to on the third attempt (part_002 line 758). -/
def fallbackModel : String := "gemini-2.5-flash"

/-- Observable outcome of a part_002 `retryWithBackoff` run: the returned or
thrown value (`none` models the `undefined` of a zero-iteration loop), the
final value of the shared mutable `model` variable, the number of waits, the
number of calls to `fn`, and the model in effect at each attempt in order. -/
structure RetryOutcome (A : Type) where
  result : Option (Except String A)
  model : String
  waits : Nat
  calls : Nat
  modelsUsed : List String

/-- Loop body of part_002's `retryWithBackoff` (lines 752-771), with the
shared mutable `model` threaded explicitly: on attempt 3 the model is set to
`gemini-2.5-flash` before calling `fn`; a failed non-terminal attempt waits
and continues; a failed terminal attempt rethrows. -/
def retryGo {A : Type} (fn : Nat → String → Except String A) (maxAttempts : Nat) :
    Nat → Nat → String → RetryOutcome A
  | 0, _, model => ⟨none, model, 0, 0, []⟩
  | fuel + 1, attempt, model =>
    if attempt ≤ maxAttempts then
      let model1 := if attempt = 3 then "gemini-2.5-flash" else model
      match fn attempt model1 with
      | Except.ok a => ⟨some (Except.ok a), model1, 0, 1, [model1]⟩
      | Except.error e =>
        if attempt = maxAttempts then ⟨some (Except.error e), model1, 0, 1, [model1]⟩
        else
          let r := retryGo fn maxAttempts fuel (attempt + 1) model1
          ⟨r.result, r.model, r.waits + 1, r.calls + 1, model1 :: r.modelsUsed⟩
    else ⟨none, model, 0, 0, []⟩

/-- part_002's `retryWithBackoff(fn, maxAttempts, delayMs)` starting from the
current value of the shared `model` variable. -/
def retryWithBackoff {A : Type} (fn : Nat → String → Except String A)
    (maxAttempts : Nat) (delayMs : Nat) (model : String) : RetryOutcome A :=
  retryGo fn maxAttempts (maxAttempts + 1) 1 model

/-! ### Aggregator (part_002 lines 891-918) -/

/-- `getTopUser` of part_002 lines 891-905: sort the (handle, count) pairs by
descending count (JavaScript's stable `sort`, modelled by `mergeSort`), read
the maximal count off the first element, keep every pair achieving it, and
join their @-prefixed handles. An empty counts map gives `("", 0)`. -/
def getTopUser (counts : List (String × Nat)) : String × Nat :=
  if counts.isEmpty then ("", 0)
  else
    let sorted := counts.mergeSort (fun a b => decide (b.2 ≤ a.2))
    let maxCount := (sorted.headD ("", 0)).2
    let topUsers := sorted.filter (fun p => p.2 == maxCount)
    let username := String.intercalate ", " (topUsers.map (fun p => "@" ++ p.1))
    (username, maxCount)

/-! ### Window scanner (part_002 lines 940-988) -/

/-- A feed entry as the scan loop sees it: its parsed creation instant
(`new Date(entry.created_at...).getTime()`) and an identifier. -/
structure Entry where
  created_at : Int
  eid : Nat
deriving DecidableEq, Repr

/-- The in-window test of part_002 line 976: the normalized instant
`created_at - polandOffset` is at or after the look-back cutoff. -/
def entryInWindow (polandOffset cutoff : Int) (e : Entry) : Bool :=
  decide (cutoff ≤ e.created_at - polandOffset)

/-- The `for (const entry of entries)` loop of part_002 lines 972-983: push
entries while they are in the window; the first strictly older entry stops
the whole scan (second component `false`). -/
def scanPageEntries (polandOffset cutoff : Int) : List Entry → List Entry × Bool
  | [] => ([], true)
  | e :: rest =>
    if entryInWindow polandOffset cutoff e then
      let r := scanPageEntries polandOffset cutoff rest
      (e :: r.1, r.2)
    else ([], false)

/-- The `for (let i = 0; i < pagesData.length; i++)` loop of part_002 lines
965-986: walk the fetched pages of one batch in source-index order; an empty
page stops the scan, a page whose entry loop stopped stops the scan, and the
collected entries of the processed prefix are kept. -/
def scanBatchPages (polandOffset cutoff : Int) : List (List Entry) → List Entry × Bool
  | [] => ([], true)
  | p :: rest =>
    if p.isEmpty then ([], false)
    else
      let r := scanPageEntries polandOffset cutoff p
      if r.2 then
        let r2 := scanBatchPages polandOffset cutoff rest
        (r.1 ++ r2.1, r2.2)
      else (r.1, false)

/-- Page `page` (1-indexed) of the feed; pages past the end are empty, as the
paginated API returns `[]` past the last page. -/
def getPage (feed : List (List Entry)) (page : Nat) : List Entry :=
  feed.getD (page - 1) []

/-- The `while (shouldContinue)` loop of part_002 lines 947-988: fetch the
batch of pages `currentBatchStart .. currentBatchStart + batchSize - 1`,
process them in source-index order, and continue with the next batch while no
stop condition fired. The structural fuel only caps the number of batches;
`recentEntries` supplies enough fuel for any feed. -/
def scanLoop (feed : List (List Entry)) (polandOffset cutoff : Int) (batchSize : Nat) :
    Nat → Nat → List Entry
  | 0, _ => []
  | fuel + 1, currentBatchStart =>
    let pages := (List.range batchSize).map (fun i => getPage feed (currentBatchStart + i))
    let r := scanBatchPages polandOffset cutoff pages
    if r.2 then r.1 ++ scanLoop feed polandOffset cutoff batchSize fuel (currentBatchStart + batchSize)
    else r.1

/-- The `recentEntries` accumulated by the sentiment-analysis scan (part_002
lines 945-988), starting at page 1. -/
def recentEntries (feed : List (List Entry)) (polandOffset cutoff : Int)
    (batchSize : Nat) : List Entry :=
  scanLoop feed polandOffset cutoff batchSize (feed.length + 1) 1

/-- Cut an item list into consecutive pages of `limit` items (the last page
may be shorter): the paginated reverse-chronological feed of one snapshot,
as served page by page. Structural fuel; `paginate` supplies enough. -/
def paginateGo (limit : Nat) : Nat → List Entry → List (List Entry)
  | 0, _ => []
  | _, [] => []
  | fuel + 1, e :: rest => ((e :: rest).take limit) :: paginateGo limit fuel ((e :: rest).drop limit)

/-- The paginated view of an item list with page size `limit`. -/
def paginate (limit : Nat) (items : List Entry) : List (List Entry) :=
  paginateGo limit items.length items

/-! ### Schema validation (part_002 lines 719-750) and the JS value model -/

/-- JavaScript values as produced by `JSON.parse`. -/
inductive JVal where
  | str (s : String)
  | num (n : Int)
  | bool (b : Bool)
  | null
  | arr (xs : List JVal)
  | obj (fields : List (String × JVal))

/-- JavaScript `typeof`: note `typeof null` and `typeof []` are both
`"object"`. -/
def jsTypeof : JVal → String
  | JVal.str _ => "string"
  | JVal.num _ => "number"
  | JVal.bool _ => "boolean"
  | JVal.null => "object"
  | JVal.arr _ => "object"
  | JVal.obj _ => "object"

/-- JavaScript `Array.isArray`. -/
def isJsArray : JVal → Bool
  | JVal.arr _ => true
  | _ => false

/-- JavaScript `=== null`. -/
def isJsNull : JVal → Bool
  | JVal.null => true
  | _ => false

/-- `typeof v === "object" && v !== null`: the element test of part_002
line 733. -/
def isNonNullObject (v : JVal) : Bool :=
  jsTypeof v == "object" && !isJsNull v

/-- Property lookup as JavaScript's `in` answers it on object-likes: own keys
for objects; index strings and `length` for arrays. (The prototype chain is
not part of the JSON value model.) -/
def hasJsField (field : String) : JVal → Bool
  | JVal.obj fields => fields.any (fun kv => kv.1 == field)
  | JVal.arr xs => field == "length" || (List.range xs.length).any (fun i => toString i == field)
  | _ => false

/-- The message of the TypeError raised by `in` on a non-object. -/
def typeErrorIn (field : String) : String :=
  "TypeError: cannot use the in operator to search for " ++ field

/-- JavaScript's `field in v`: defined on objects and arrays, a thrown
TypeError on every other value. -/
def jsIn (field : String) (v : JVal) : Except String Bool :=
  match v with
  | JVal.obj _ => Except.ok (hasJsField field v)
  | JVal.arr _ => Except.ok (hasJsField field v)
  | _ => Except.error (typeErrorIn field)

/-- Property read `data[key]`, for object data; only reached after
`key in data` answered true. -/
def jsGet : JVal → String → JVal
  | JVal.obj fields, key =>
    (((fields.find? (fun kv => kv.1 == key)).map (fun kv => kv.2)).getD JVal.null)
  | _, _ => JVal.null

/-- One schema entry value: either the bare string `'string'` or an object
`{ type, requiredFields }` as in part_002 lines 1055-1060. -/
inductive SchemaConfig where
  | plain (s : String)
  | detailed (t : String) (requiredFields : Option (List String))

/-- `typeof config === 'string' ? config : config.type` (part_002 line 722). -/
def SchemaConfig.jsType : SchemaConfig → String
  | SchemaConfig.plain s => s
  | SchemaConfig.detailed t _ => t

/-- `config.requiredFields || []` (part_002 line 723). -/
def SchemaConfig.reqFields : SchemaConfig → List String
  | SchemaConfig.plain _ => []
  | SchemaConfig.detailed _ rf => rf.getD []

/-- The inner `requiredFields.forEach` of part_002 lines 740-744 for one array
element: each `field in item` may throw on a non-object `item`. -/
def checkSubFields (key : String) (index : Nat) (item : JVal) :
    List String → Except String (List String)
  | [] => Except.ok []
  | field :: rest =>
    match jsIn field item with
    | Except.error err => Except.error err
    | Except.ok present =>
      match checkSubFields key index item rest with
      | Except.error err => Except.error err
      | Except.ok es =>
        if present then Except.ok es
        else Except.ok (("Field " ++ key ++ "[" ++ toString index ++
          "] is missing required field: " ++ field) :: es)

/-- The `data[key].forEach` of part_002 lines 739-745. -/
def checkItems (key : String) (requiredFields : List String) :
    Nat → List JVal → Except String (List String)
  | _, [] => Except.ok []
  | index, item :: rest =>
    match checkSubFields key index item requiredFields with
    | Except.error err => Except.error err
    | Except.ok es1 =>
      match checkItems key requiredFields (index + 1) rest with
      | Except.error err => Except.error err
      | Except.ok es2 => Except.ok (es1 ++ es2)

/-- The loop body of `validateSchema` for one schema entry (part_002 lines
721-748): the `if / else if` chain over presence, string typing, array
typing, element objecthood and element sub-fields. -/
def checkEntry (data : JVal) (key : String) (config : SchemaConfig) :
    Except String (List String) :=
  let t := config.jsType
  let requiredFields := config.reqFields
  match jsIn key data with
  | Except.error err => Except.error err
  | Except.ok present =>
    if !present then Except.ok ["Missing field: " ++ key]
    else
      let v := jsGet data key
      if t == "string" && jsTypeof v != "string" then
        Except.ok ["Field " ++ key ++ " should be string, got " ++ jsTypeof v]
      else if t == "array-of-objects" && !isJsArray v then
        Except.ok ["Field " ++ key ++ " should be array, got " ++ jsTypeof v]
      else if t == "array-of-objects" && isJsArray v then
        match v with
        | JVal.arr xs =>
          let nonObjectElements := xs.filter (fun item => jsTypeof item != "object" || isJsNull item)
          let e0 := if nonObjectElements.length > 0 then
              ["Field " ++ key ++ " should be array of objects, but contains non-object elements"]
            else []
          if requiredFields.length > 0 then
            match checkItems key requiredFields 0 xs with
            | Except.error err => Except.error err
            | Except.ok es => Except.ok (e0 ++ es)
          else Except.ok e0
        | _ => Except.ok []
      else Except.ok []

/-- `validateSchema` of part_002 lines 719-750: walk the schema entries in
order, concatenating the collected error messages; a TypeError thrown by `in`
aborts the whole call. -/
def validateSchema (data : JVal) : List (String × SchemaConfig) → Except String (List String)
  | [] => Except.ok []
  | (key, config) :: rest =>
    match checkEntry data key config with
    | Except.error err => Except.error err
    | Except.ok es1 =>
      match validateSchema data rest with
      | Except.error err => Except.error err
      | Except.ok es2 => Except.ok (es1 ++ es2)

/-- The `sentimentSchema` of part_002 lines 1055-1060. -/
def sentimentSchema : List (String × SchemaConfig) :=
  [("sentiment", SchemaConfig.plain "string"),
   ("summary", SchemaConfig.plain "string"),
   ("mostDiscussed", SchemaConfig.detailed "array-of-objects" (some ["asset", "reasoning"])),
   ("topQuotes", SchemaConfig.detailed "array-of-objects" (some ["username", "sentiment", "quote", "url"]))]

/-- The element list of an array value (empty for non-arrays). -/
def jsElems : JVal → List JVal
  | JVal.arr xs => xs
  | _ => []

/-- Conformance as the specification words it: every declared top-level field
present; fields declared string are string-typed; fields declared
array-of-objects are arrays whose every element is a non-null object
containing every listed required sub-field. Written from the claim, to be
compared with what `validateSchema` accepts. -/
def fieldConforms (data : JVal) (key : String) (config : SchemaConfig) : Bool :=
  hasJsField key data &&
    (let v := jsGet data key
     let t := config.jsType
     (t != "string" || jsTypeof v == "string") &&
     (t != "array-of-objects" ||
       (isJsArray v && (jsElems v).all (fun item => isNonNullObject item &&
         config.reqFields.all (fun f => hasJsField f item)))))

/-- Whole-schema conformance, from the claim's words. -/
def conformsToSchema (data : JVal) (schema : List (String × SchemaConfig)) : Bool :=
  schema.all (fun kc => fieldConforms data kc.1 kc.2)

/-- The inputs on which the validator's element loop cannot throw: whenever a
declared array-of-objects field with a nonempty required-sub-field list is
present as an array, all its elements are non-null objects. -/
def elementsProviso (data : JVal) (schema : List (String × SchemaConfig)) : Bool :=
  schema.all (fun kc =>
    kc.2.jsType != "array-of-objects" || kc.2.reqFields.isEmpty ||
      !isJsArray (jsGet data kc.1) ||
      (jsElems (jsGet data kc.1)).all isNonNullObject)

/-! ### parseInt and the persisted sentiment (part_002 lines 1225-1291) -/

/-- Decimal digit value, if any. -/
def digitVal (c : Char) : Option Nat :=
  if '0' ≤ c ∧ c ≤ '9' then some (c.toNat - '0'.toNat) else none

/-- Accumulate a decimal digit list into a number. -/
def parseDigits : List Char → Nat → Nat
  | [], acc => acc
  | c :: rest, acc =>
    match digitVal c with
    | some d => parseDigits rest (acc * 10 + d)
    | none => acc

/-- Model of JavaScript `parseInt(s)` (radix 10): skip leading whitespace,
read an optional sign and the longest digit prefix; no digits means `NaN`,
modelled as `none`. -/
def jsParseInt (s : String) : Option Int :=
  let l := s.data.dropWhile isJsWs
  let signed : Int × List Char :=
    match l with
    | '-' :: rest => (-1, rest)
    | '+' :: rest => (1, rest)
    | _ => (1, l)
  let ds := signed.2.takeWhile (fun c => (digitVal c).isSome)
  if ds.isEmpty then none
  else some (signed.1 * (parseDigits ds 0 : Int))

/-- The `sentiment` attribute written by `createDocument` (part_002 line
1278): `parseInt(sentimentResult.sentiment)`. The validated schema makes the
field a string; `parseInt` of a non-string field is not modelled. NaN is
`none`. -/
def storedSentiment (sentimentResult : JVal) : Option Int :=
  match jsGet sentimentResult "sentiment" with
  | JVal.str s => jsParseInt s
  | _ => none

/-- The needle angle of part_002 line 1229 up to the radian conversion:
`-90 + sentiment * 1.8` degrees, with NaN (none) propagating through the
arithmetic as it does in floating point. -/
def needleAngleDeg : Option Int → Option ℚ
  | none => none
  | some s => some (-90 + (s : ℚ) * (9 / 5))

/-- A sentiment response that satisfies `sentimentSchema` although its
`sentiment` field is not numeric. -/
def nanResponse : JVal :=
  JVal.obj [("sentiment", JVal.str "bullish"), ("summary", JVal.str "ok"),
    ("mostDiscussed", JVal.arr [JVal.obj [("asset", JVal.str "GPW"), ("reasoning", JVal.str "r")]]),
    ("topQuotes", JVal.arr [])]

end Index

/-- A concrete stand-in for `JSON.parse` that accepts exactly the text
`null`: used to instantiate the abstract parser of `cleanJsonResponse`. -/
def demoParse (t : List Char) : Except String Unit :=
  if t = "null".data then Except.ok () else Except.error "unexpected token"

/-! # Theorems -/

/-! ## C7: the action sequencer isolates failures and orders publish before persist -/

theorem processReplies_append (publish persist : Post.ReplyObj → Except String Unit)
    (xs ys : List Post.ReplyObj) :
    Post.processReplies publish persist (xs ++ ys) =
      Post.processReplies publish persist xs ++ Post.processReplies publish persist ys := by
  induction xs with
  | nil => simp [Post.processReplies]
  | cons r rest ih => simp [Post.processReplies, ih]

theorem persistAttempted_mem_processReply (publish persist : Post.ReplyObj → Except String Unit)
    (y r : Post.ReplyObj) :
    Post.SeqEvent.persistAttempted r ∈ Post.processReply publish persist y ↔
      r = y ∧ (publish y).isOk = true := by
  unfold Post.processReply
  cases hpub : publish y with
  | error e => simp [hpub, Except.isOk, Except.toBool]
  | ok u =>
    cases hper : persist y with
    | error e => simp [hpub, hper, Except.isOk, Except.toBool]
    | ok u' => simp [hpub, hper, Except.isOk, Except.toBool]

/-- C7: for every list of reply items, every item's publish is attempted (a
failure on an earlier item never prevents later items); persistence of an item
is attempted exactly when that item's publish succeeded (so a failed publish
skips only that item's persistence); and the event trace of any split of the
item list decomposes into independent per-item segments, so one item's failure
cannot affect any other item's processing. -/
theorem action_sequencer_isolated (publish persist : Post.ReplyObj → Except String Unit)
    (items : List Post.ReplyObj) :
    (∀ r ∈ items, Post.SeqEvent.publishAttempted r ∈ Post.processReplies publish persist items) ∧
    (∀ r, Post.SeqEvent.persistAttempted r ∈ Post.processReplies publish persist items ↔
      r ∈ items ∧ (publish r).isOk = true) ∧
    (∀ xs y zs, items = xs ++ y :: zs →
      Post.processReplies publish persist items =
        Post.processReplies publish persist xs ++ Post.processReply publish persist y ++
          Post.processReplies publish persist zs) := by
  refine ⟨?_, ?_, ?_⟩
  · intro r hr
    induction items with
    | nil => cases hr
    | cons x rest ih =>
      rcases List.mem_cons.mp hr with h | h
      · subst h
        unfold Post.processReplies Post.processReply
        simp
      · unfold Post.processReplies
        exact List.mem_append_right _ (ih h)
  · intro r
    induction items with
    | nil => simp [Post.processReplies]
    | cons x rest ih =>
      unfold Post.processReplies
      rw [List.mem_append, ih, persistAttempted_mem_processReply]
      constructor
      · rintro (⟨rfl, hok⟩ | ⟨hmem, hok⟩)
        · exact ⟨List.mem_cons_self _ _, hok⟩
        · exact ⟨List.mem_cons_of_mem _ hmem, hok⟩
      · rintro ⟨hmem, hok⟩
        rcases List.mem_cons.mp hmem with h | h
        · subst h
          exact Or.inl ⟨rfl, hok⟩
        · exact Or.inr ⟨h, hok⟩
  · intro xs y zs hsplit
    subst hsplit
    rw [processReplies_append]
    simp [Post.processReplies, List.append_assoc]

/-- C7 witness: with three concrete reply items where publishing the second
fails, the first and third are still attempted, the second item's persistence
is skipped, and the third item's persistence still happens. -/
theorem action_sequencer_isolated_witness :
    Post.SeqEvent.publishAttempted ⟨3, "c", "u3", "q3", "r3"⟩ ∈
      Post.processReplies
        (fun r => if r.postId = 2 then Except.error "boom" else Except.ok ())
        (fun _ => Except.ok ())
        [⟨1, "a", "u1", "q1", "r1"⟩, ⟨2, "b", "u2", "q2", "r2"⟩, ⟨3, "c", "u3", "q3", "r3"⟩] ∧
    ¬ (Post.SeqEvent.persistAttempted ⟨2, "b", "u2", "q2", "r2"⟩ ∈
      Post.processReplies
        (fun r => if r.postId = 2 then Except.error "boom" else Except.ok ())
        (fun _ => Except.ok ())
        [⟨1, "a", "u1", "q1", "r1"⟩, ⟨2, "b", "u2", "q2", "r2"⟩, ⟨3, "c", "u3", "q3", "r3"⟩]) := by
  constructor
  · exact (action_sequencer_isolated _ _ _).1 _ (by decide)
  · intro h
    have := ((action_sequencer_isolated
      (fun r => if r.postId = 2 then Except.error "boom" else Except.ok ())
      (fun _ => Except.ok ())
      [⟨1, "a", "u1", "q1", "r1"⟩, ⟨2, "b", "u2", "q2", "r2"⟩, ⟨3, "c", "u3", "q3", "r3"⟩]).2.1
      ⟨2, "b", "u2", "q2", "r2"⟩).mp h
    revert this
    decide

/-! ## C4: getTopUser reports the maximum count with all tied handles -/

theorem getTopUser_cons_eq (c : String × Nat) (cs : List (String × Nat)) :
    Index.getTopUser (c :: cs) =
      (String.intercalate ", "
        ((((c :: cs).mergeSort (fun a b => decide (b.2 ≤ a.2))).filter
          (fun p => p.2 == (((c :: cs).mergeSort (fun a b => decide (b.2 ≤ a.2))).headD ("", 0)).2)).map
          (fun p => "@" ++ p.1)),
       (((c :: cs).mergeSort (fun a b => decide (b.2 ≤ a.2))).headD ("", 0)).2) := rfl

/-- C4: `getTopUser` on the empty counter map returns the empty handle with
count zero rather than failing; on a nonempty map it returns the maximal
count, that count is achieved by some handle, the joined handle string is
built from exactly the pairs achieving the maximum (all tied handles, never
fewer), and a unique maximum yields exactly that one @-prefixed handle. -/
theorem aggregator_top_user_ties :
    Index.getTopUser [] = ("", 0) ∧
    ∀ counts : List (String × Nat), counts ≠ [] →
      (∀ p ∈ counts, p.2 ≤ (Index.getTopUser counts).2) ∧
      (∃ p ∈ counts, p.2 = (Index.getTopUser counts).2) ∧
      (∃ tops : List (String × Nat),
        tops.Perm (counts.filter (fun p => p.2 == (Index.getTopUser counts).2)) ∧
        (Index.getTopUser counts).1 =
          String.intercalate ", " (tops.map (fun p => "@" ++ p.1))) ∧
      (∀ p : String × Nat,
        counts.filter (fun q => q.2 == (Index.getTopUser counts).2) = [p] →
        (Index.getTopUser counts).1 = "@" ++ p.1) := by
  constructor
  · rfl
  · intro counts hne
    obtain ⟨c, cs, rfl⟩ := List.exists_cons_of_ne_nil hne
    have hperm : ((c :: cs).mergeSort (fun a b => decide (b.2 ≤ a.2))).Perm (c :: cs) :=
      List.mergeSort_perm _ _
    have htrans : ∀ a b d : String × Nat,
        (fun a b : String × Nat => decide (b.2 ≤ a.2)) a b = true →
        (fun a b : String × Nat => decide (b.2 ≤ a.2)) b d = true →
        (fun a b : String × Nat => decide (b.2 ≤ a.2)) a d = true := by
      intro a b d hab hbd
      simp only [decide_eq_true_eq] at *
      omega
    have htotal : ∀ a b : String × Nat,
        ((fun a b : String × Nat => decide (b.2 ≤ a.2)) a b ||
         (fun a b : String × Nat => decide (b.2 ≤ a.2)) b a) = true := by
      intro a b
      simp only [Bool.or_eq_true, decide_eq_true_eq]
      omega
    have hsorted := (List.sorted_mergeSort htrans htotal (c :: cs)).imp
      (fun h => of_decide_eq_true h)
    obtain ⟨s, ss, hms⟩ : ∃ s ss,
        (c :: cs).mergeSort (fun a b => decide (b.2 ≤ a.2)) = s :: ss := by
      cases h : (c :: cs).mergeSort (fun a b => decide (b.2 ≤ a.2)) with
      | nil =>
        exfalso
        have hl := hperm.length_eq
        rw [h] at hl
        simp at hl
      | cons s ss => exact ⟨s, ss, rfl⟩
    rw [hms] at hperm hsorted
    rw [getTopUser_cons_eq, hms]
    simp only [List.headD_cons]
    have hrel := (List.pairwise_cons.mp hsorted).1
    refine ⟨?_, ?_, ?_, ?_⟩
    · intro p hp
      have hp' : p ∈ s :: ss := hperm.mem_iff.mpr hp
      rcases List.mem_cons.mp hp' with h | h
      · subst h; exact Nat.le_refl _
      · exact hrel p h
    · exact ⟨s, hperm.mem_iff.mp (List.mem_cons_self s ss), rfl⟩
    · exact ⟨(s :: ss).filter (fun p => p.2 == s.2),
        List.Perm.filter _ hperm, rfl⟩
    · intro p hfil
      have htops : ((s :: ss).filter (fun q => q.2 == s.2)).Perm [p] := by
        rw [← hfil]
        exact List.Perm.filter _ hperm
      have := List.perm_singleton.mp htops
      rw [this]
      rfl

/-- C4 witness: the tied map `[(a,2),(b,2),(c,1)]` achieves top count 2 and
the empty map gives `("", 0)`. -/
theorem aggregator_top_user_ties_witness :
    (("a", 2) : String × Nat).2 ≤ (Index.getTopUser [("a", 2), ("b", 2), ("c", 1)]).2 ∧
    Index.getTopUser [] = ("", 0) :=
  ⟨(aggregator_top_user_ties.2 [("a", 2), ("b", 2), ("c", 1)] (by decide)).1 ("a", 2)
     (by decide),
   aggregator_top_user_ties.1⟩

/-! ## Retry loop lemmas (part_000 and part_002 `retryWithBackoff`) -/

theorem Index_retryGo_succeed {A : Type} (fn : Nat → String → Except String A)
    (N k : Nat) (v : A) (hkN : k ≤ N) :
    ∀ fuel attempt model, attempt ≤ k → k - attempt < fuel →
    (∀ i m, attempt ≤ i → i < k → (fn i m).isOk = false) →
    (∀ m, fn k m = Except.ok v) →
    ∃ fm tr, Index.retryGo fn N fuel attempt model =
      ⟨some (Except.ok v), fm, k - attempt, k + 1 - attempt, tr⟩ := by
  intro fuel
  induction fuel with
  | zero =>
    intro attempt model hak hfuel _ _
    omega
  | succ fuel ih =>
    intro attempt model hak hfuel hfail hok
    simp only [Index.retryGo]
    rw [if_pos (by omega : attempt ≤ N)]
    by_cases hk : attempt = k
    · subst hk
      rw [hok]
      have h1 : attempt - attempt = 0 := by omega
      have h2 : attempt + 1 - attempt = 1 := by omega
      rw [h1, h2]
      exact ⟨_, _, rfl⟩
    · have hlt : attempt < k := Nat.lt_of_le_of_ne hak hk
      have hfa := hfail attempt (if attempt = 3 then "gemini-2.5-flash" else model)
        (Nat.le_refl _) hlt
      obtain ⟨err, herr⟩ : ∃ err, fn attempt (if attempt = 3 then "gemini-2.5-flash" else model) =
          Except.error err := by
        cases hfn : fn attempt (if attempt = 3 then "gemini-2.5-flash" else model) with
        | ok a => rw [hfn] at hfa; simp [Except.isOk, Except.toBool] at hfa
        | error err => exact ⟨err, rfl⟩
      rw [herr]
      dsimp only
      rw [if_neg (by omega : ¬ attempt = N)]
      obtain ⟨fm, tr, hr⟩ := ih (attempt + 1) (if attempt = 3 then "gemini-2.5-flash" else model)
        (by omega) (by omega) (fun i m hi1 hi2 => hfail i m (by omega) hi2) hok
      rw [hr]
      have h1 : k - (attempt + 1) + 1 = k - attempt := by omega
      have h2 : k + 1 - (attempt + 1) + 1 = k + 1 - attempt := by omega
      refine ⟨fm, (if attempt = 3 then "gemini-2.5-flash" else model) :: tr, ?_⟩
      simp [h1, h2] <;> omega

theorem Index_retryGo_fail {A : Type} (fn : Nat → String → Except String A)
    (N : Nat) (e : Nat → String) :
    ∀ fuel attempt model, attempt ≤ N → N - attempt < fuel →
    (∀ i m, attempt ≤ i → i ≤ N → fn i m = Except.error (e i)) →
    ∃ fm tr, Index.retryGo fn N fuel attempt model =
      ⟨some (Except.error (e N)), fm, N - attempt, N + 1 - attempt, tr⟩ := by
  intro fuel
  induction fuel with
  | zero =>
    intro attempt model haN hfuel _
    omega
  | succ fuel ih =>
    intro attempt model haN hfuel hfail
    simp only [Index.retryGo]
    rw [if_pos haN]
    rw [hfail attempt (if attempt = 3 then "gemini-2.5-flash" else model) (Nat.le_refl _) haN]
    dsimp only
    by_cases hN : attempt = N
    · subst hN
      rw [if_pos rfl]
      have h1 : attempt - attempt = 0 := by omega
      have h2 : attempt + 1 - attempt = 1 := by omega
      rw [h1, h2]
      exact ⟨_, _, rfl⟩
    · rw [if_neg hN]
      obtain ⟨fm, tr, hr⟩ := ih (attempt + 1) (if attempt = 3 then "gemini-2.5-flash" else model)
        (by omega) (by omega) (fun i m hi1 hi2 => hfail i m (by omega) hi2)
      rw [hr]
      have h1 : N - (attempt + 1) + 1 = N - attempt := by omega
      have h2 : N + 1 - (attempt + 1) + 1 = N + 1 - attempt := by omega
      refine ⟨fm, (if attempt = 3 then "gemini-2.5-flash" else model) :: tr, ?_⟩
      simp [h1, h2] <;> omega

theorem Post_retryGo_succeed {A : Type} (fn : Nat → Post.Cred → String → List Post.Tool → Except String A)
    (N k : Nat) (v : A) (hkN : k ≤ N) :
    ∀ fuel attempt ai model, attempt ≤ k → k - attempt < fuel →
    (∀ i c m t, attempt ≤ i → i < k → (fn i c m t).isOk = false) →
    (∀ c m t, fn k c m t = Except.ok v) →
    ∃ fa fm tr, Post.retryGo fn N fuel attempt ai model =
      ⟨some (Except.ok v), fa, fm, k - attempt, k + 1 - attempt, tr⟩ := by
  intro fuel
  induction fuel with
  | zero =>
    intro attempt ai model hak hfuel _ _
    omega
  | succ fuel ih =>
    intro attempt ai model hak hfuel hfail hok
    simp only [Post.retryGo]
    rw [if_pos (by omega : attempt ≤ N)]
    by_cases hk : attempt = k
    · subst hk
      rw [hok]
      have h1 : attempt - attempt = 0 := by omega
      have h2 : attempt + 1 - attempt = 1 := by omega
      rw [h1, h2]
      exact ⟨_, _, _, rfl⟩
    · have hlt : attempt < k := Nat.lt_of_le_of_ne hak hk
      have hfa := hfail attempt (Post.applySwitch attempt ai model).1
        (Post.applySwitch attempt ai model).2
        (Post.toolsFor (Post.applySwitch attempt ai model).2) (Nat.le_refl _) hlt
      obtain ⟨err, herr⟩ : ∃ err, fn attempt (Post.applySwitch attempt ai model).1
          (Post.applySwitch attempt ai model).2
          (Post.toolsFor (Post.applySwitch attempt ai model).2) = Except.error err := by
        cases hfn : fn attempt (Post.applySwitch attempt ai model).1
            (Post.applySwitch attempt ai model).2
            (Post.toolsFor (Post.applySwitch attempt ai model).2) with
        | ok a => rw [hfn] at hfa; simp [Except.isOk, Except.toBool] at hfa
        | error err => exact ⟨err, rfl⟩
      rw [herr]
      dsimp only
      rw [if_neg (by omega : ¬ attempt = N)]
      obtain ⟨fa, fm, tr, hr⟩ := ih (attempt + 1) (Post.applySwitch attempt ai model).1
        (Post.applySwitch attempt ai model).2 (by omega) (by omega)
        (fun i c m t hi1 hi2 => hfail i c m t (by omega) hi2) hok
      rw [hr]
      have h1 : k - (attempt + 1) + 1 = k - attempt := by omega
      have h2 : k + 1 - (attempt + 1) + 1 = k + 1 - attempt := by omega
      refine ⟨fa, fm,
        (⟨(Post.applySwitch attempt ai model).1, (Post.applySwitch attempt ai model).2,
          Post.toolsFor (Post.applySwitch attempt ai model).2⟩ : Post.AttemptConfig) :: tr, ?_⟩
      simp [h1, h2] <;> omega

theorem Post_retryGo_fail {A : Type} (fn : Nat → Post.Cred → String → List Post.Tool → Except String A)
    (N : Nat) (e : Nat → String) :
    ∀ fuel attempt ai model, attempt ≤ N → N - attempt < fuel →
    (∀ i c m t, attempt ≤ i → i ≤ N → fn i c m t = Except.error (e i)) →
    ∃ fa fm tr, Post.retryGo fn N fuel attempt ai model =
      ⟨some (Except.error (e N)), fa, fm, N - attempt, N + 1 - attempt, tr⟩ := by
  intro fuel
  induction fuel with
  | zero =>
    intro attempt ai model haN hfuel _
    omega
  | succ fuel ih =>
    intro attempt ai model haN hfuel hfail
    simp only [Post.retryGo]
    rw [if_pos haN]
    rw [hfail attempt (Post.applySwitch attempt ai model).1 (Post.applySwitch attempt ai model).2
      (Post.toolsFor (Post.applySwitch attempt ai model).2) (Nat.le_refl _) haN]
    dsimp only
    by_cases hN : attempt = N
    · subst hN
      rw [if_pos rfl]
      have h1 : attempt - attempt = 0 := by omega
      have h2 : attempt + 1 - attempt = 1 := by omega
      rw [h1, h2]
      exact ⟨_, _, _, rfl⟩
    · rw [if_neg hN]
      obtain ⟨fa, fm, tr, hr⟩ := ih (attempt + 1) (Post.applySwitch attempt ai model).1
        (Post.applySwitch attempt ai model).2 (by omega) (by omega)
        (fun i c m t hi1 hi2 => hfail i c m t (by omega) hi2)
      rw [hr]
      have h1 : N - (attempt + 1) + 1 = N - attempt := by omega
      have h2 : N + 1 - (attempt + 1) + 1 = N + 1 - attempt := by omega
      refine ⟨fa, fm,
        (⟨(Post.applySwitch attempt ai model).1, (Post.applySwitch attempt ai model).2,
          Post.toolsFor (Post.applySwitch attempt ai model).2⟩ : Post.AttemptConfig) :: tr, ?_⟩
      simp [h1, h2] <;> omega

theorem applySwitch_one (ai : Post.Cred) (model : String) :
    Post.applySwitch 1 ai model = (ai, model) := rfl

theorem applySwitch_two (ai : Post.Cred) (model : String) :
    Post.applySwitch 2 ai model = (Post.Cred.backup, model) := rfl

theorem applySwitch_three (ai : Post.Cred) (model : String) :
    Post.applySwitch 3 ai model = (Post.Cred.primary, Post.backupModel) := rfl

theorem applySwitch_four (ai : Post.Cred) (model : String) :
    Post.applySwitch 4 ai model = (Post.Cred.backup, Post.backupModel) := rfl

theorem toolsFor_primary : Post.toolsFor Post.primaryModel = Post.fullToolSet := rfl

theorem toolsFor_backup : Post.toolsFor Post.backupModel = [Post.Tool.urlContext] := rfl

/-- C2: for both retry helpers (part_000's four-attempt escalation and
part_002's three-attempt one), with any maxAttempts N ≥ 1: a function that
fails on attempts 1..N-1 and succeeds on attempt N makes the loop return the
attempt-N value after exactly N-1 fixed-delay waits and exactly N calls; a
function that fails on all N attempts makes the loop rethrow the error of the
last attempt after exactly N calls and exactly N-1 waits — no wait follows the
terminal failure and no further call occurs. -/
theorem retry_attempt_and_wait_counts (A : Type) (N : Nat) (hN : 1 ≤ N) :
    (∀ (fn : Nat → String → Except String A) (v : A) (d : Nat) (m0 : String),
      (∀ i m, 1 ≤ i → i < N → (fn i m).isOk = false) →
      (∀ m, fn N m = Except.ok v) →
      (Index.retryWithBackoff fn N d m0).result = some (Except.ok v) ∧
      (Index.retryWithBackoff fn N d m0).waits = N - 1 ∧
      (Index.retryWithBackoff fn N d m0).calls = N) ∧
    (∀ (fn : Nat → String → Except String A) (e : Nat → String) (d : Nat) (m0 : String),
      (∀ i m, 1 ≤ i → i ≤ N → fn i m = Except.error (e i)) →
      (Index.retryWithBackoff fn N d m0).result = some (Except.error (e N)) ∧
      (Index.retryWithBackoff fn N d m0).waits = N - 1 ∧
      (Index.retryWithBackoff fn N d m0).calls = N) ∧
    (∀ (fn : Nat → Post.Cred → String → List Post.Tool → Except String A) (v : A)
       (d : Nat) (c0 : Post.Cred) (m0 : String),
      (∀ i c m t, 1 ≤ i → i < N → (fn i c m t).isOk = false) →
      (∀ c m t, fn N c m t = Except.ok v) →
      (Post.retryWithBackoff fn N d c0 m0).result = some (Except.ok v) ∧
      (Post.retryWithBackoff fn N d c0 m0).waits = N - 1 ∧
      (Post.retryWithBackoff fn N d c0 m0).calls = N) ∧
    (∀ (fn : Nat → Post.Cred → String → List Post.Tool → Except String A) (e : Nat → String)
       (d : Nat) (c0 : Post.Cred) (m0 : String),
      (∀ i c m t, 1 ≤ i → i ≤ N → fn i c m t = Except.error (e i)) →
      (Post.retryWithBackoff fn N d c0 m0).result = some (Except.error (e N)) ∧
      (Post.retryWithBackoff fn N d c0 m0).waits = N - 1 ∧
      (Post.retryWithBackoff fn N d c0 m0).calls = N) := by
  refine ⟨?_, ?_, ?_, ?_⟩
  · intro fn v d m0 hfail hok
    obtain ⟨fm, tr, hr⟩ := Index_retryGo_succeed fn N N v (Nat.le_refl _) (N + 1) 1 m0 hN
      (by omega) hfail hok
    unfold Index.retryWithBackoff
    rw [hr]
    exact ⟨rfl, rfl, by simp⟩
  · intro fn e d m0 hfail
    obtain ⟨fm, tr, hr⟩ := Index_retryGo_fail fn N e (N + 1) 1 m0 hN (by omega) hfail
    unfold Index.retryWithBackoff
    rw [hr]
    exact ⟨rfl, rfl, by simp⟩
  · intro fn v d c0 m0 hfail hok
    obtain ⟨fa, fm, tr, hr⟩ := Post_retryGo_succeed fn N N v (Nat.le_refl _) (N + 1) 1 c0 m0 hN
      (by omega) hfail hok
    unfold Post.retryWithBackoff
    rw [hr]
    exact ⟨rfl, rfl, by simp⟩
  · intro fn e d c0 m0 hfail
    obtain ⟨fa, fm, tr, hr⟩ := Post_retryGo_fail fn N e (N + 1) 1 c0 m0 hN (by omega) hfail
    unfold Post.retryWithBackoff
    rw [hr]
    exact ⟨rfl, rfl, by simp⟩

/-- C2 witness: a mock failing on attempts 1 and 2 and succeeding on attempt 3
gives back the attempt-3 value `42` with exactly 2 waits and 3 calls. -/
theorem retry_attempt_and_wait_counts_witness :
    (Index.retryWithBackoff (fun i _ => if i < 3 then Except.error "e" else Except.ok 42)
      3 30000 "gemini-3-flash-preview").result = some (Except.ok 42) ∧
    (Index.retryWithBackoff (fun i _ => if i < 3 then Except.error "e" else Except.ok 42)
      3 30000 "gemini-3-flash-preview").waits = 2 ∧
    (Index.retryWithBackoff (fun i _ => if i < 3 then Except.error "e" else Except.ok 42)
      3 30000 "gemini-3-flash-preview").calls = 3 :=
  (retry_attempt_and_wait_counts Nat 3 (by decide)).1
    (fun i _ => if i < 3 then Except.error "e" else Except.ok 42) 42 30000
    "gemini-3-flash-preview"
    (fun i m h1 h2 => by simp [h2, Except.isOk, Except.toBool])
    (fun m => by simp)

/-- C6: starting from part_000's initial state (primary credential,
`gemini-2.5-flash`), the retry helper selects exactly row i of the escalation
table on attempt i: primary credential + primary model + full tool set, then
backup credential + same model, then primary and backup credential with the
fallback model; the full capability set (urlContext plus googleSearch) is
selected exactly when the row's model is the primary model, the fallback model
receiving urlContext only; and a first success at attempt k makes the helper
use exactly the first k rows. -/
theorem escalation_table_selection (A : Type)
    (fn : Nat → Post.Cred → String → List Post.Tool → Except String A)
    (e : Nat → String) (d : Nat)
    (hfail : ∀ i c m t, fn i c m t = Except.error (e i)) :
    (Post.retryWithBackoff fn 4 d Post.Cred.primary Post.primaryModel).trace =
      Post.escalationTable ∧
    (∀ row ∈ Post.escalationTable,
      (row.tools = Post.fullToolSet ↔ row.model = Post.primaryModel)) ∧
    (∀ (fn2 : Nat → Post.Cred → String → List Post.Tool → Except String A) (v : A) (k : Nat),
      1 ≤ k → k ≤ 4 →
      (∀ i c m t, i < k → fn2 i c m t = Except.error (e i)) →
      (∀ c m t, fn2 k c m t = Except.ok v) →
      (Post.retryWithBackoff fn2 4 d Post.Cred.primary Post.primaryModel).trace =
        Post.escalationTable.take k) := by
  refine ⟨?_, by decide, ?_⟩
  · simp [Post.retryWithBackoff, Post.retryGo, hfail, applySwitch_one, applySwitch_two,
      applySwitch_three, applySwitch_four, toolsFor_primary, toolsFor_backup,
      Post.escalationTable]
  · intro fn2 v k hk1 hk4 hf ho
    interval_cases k
    · simp [Post.retryWithBackoff, Post.retryGo, ho, applySwitch_one, toolsFor_primary,
        Post.escalationTable]
    · have h1 : ∀ c m t, fn2 1 c m t = Except.error (e 1) := fun c m t => hf 1 c m t (by omega)
      simp [Post.retryWithBackoff, Post.retryGo, h1, ho, applySwitch_one, applySwitch_two,
        toolsFor_primary, Post.escalationTable]
    · have h1 : ∀ c m t, fn2 1 c m t = Except.error (e 1) := fun c m t => hf 1 c m t (by omega)
      have h2 : ∀ c m t, fn2 2 c m t = Except.error (e 2) := fun c m t => hf 2 c m t (by omega)
      simp [Post.retryWithBackoff, Post.retryGo, h1, h2, ho, applySwitch_one,
        applySwitch_two, applySwitch_three, toolsFor_primary, toolsFor_backup,
        Post.escalationTable]
    · have h1 : ∀ c m t, fn2 1 c m t = Except.error (e 1) := fun c m t => hf 1 c m t (by omega)
      have h2 : ∀ c m t, fn2 2 c m t = Except.error (e 2) := fun c m t => hf 2 c m t (by omega)
      have h3 : ∀ c m t, fn2 3 c m t = Except.error (e 3) := fun c m t => hf 3 c m t (by omega)
      simp [Post.retryWithBackoff, Post.retryGo, h1, h2, h3, ho, applySwitch_one,
        applySwitch_two, applySwitch_three, applySwitch_four, toolsFor_primary, toolsFor_backup,
        Post.escalationTable]

/-- C6 witness: with a mock that always fails, the trace of the four attempts
is exactly the escalation table. -/
theorem escalation_table_selection_witness :
    (Post.retryWithBackoff (fun i _ _ _ => (Except.error (toString i) : Except String Nat))
      4 30000 Post.Cred.primary Post.primaryModel).trace = Post.escalationTable :=
  (escalation_table_selection Nat (fun i _ _ _ => Except.error (toString i))
    (fun i => toString i) 30000 (fun _ _ _ _ => rfl)).1

theorem Index_retryGo_models_const (A : Type) (fn : Nat → String → Except String A)
    (N : Nat) : ∀ fuel attempt m,
    m ∈ (Index.retryGo fn N fuel attempt "gemini-2.5-flash").modelsUsed →
    m = "gemini-2.5-flash" := by
  intro fuel
  induction fuel with
  | zero =>
    intro attempt m hm
    simp [Index.retryGo] at hm
  | succ fuel ih =>
    intro attempt m hm
    simp only [Index.retryGo] at hm
    by_cases ha : attempt ≤ N
    · rw [if_pos ha, ite_self] at hm
      cases hfn : fn attempt "gemini-2.5-flash" with
      | ok a =>
        rw [hfn] at hm
        simp at hm
        exact hm
      | error err =>
        rw [hfn] at hm
        dsimp only at hm
        by_cases hN : attempt = N
        · rw [if_pos hN] at hm
          simp at hm
          exact hm
        · rw [if_neg hN] at hm
          simp only [List.mem_cons] at hm
          rcases hm with h | h
          · exact h
          · exact ih (attempt + 1) m h
    · rw [if_neg ha] at hm
      simp at hm

/-- C9: the part_002 model choice is shared mutable state captured by the
retry helper: if an earlier generation call in a run fails on attempts 1 and
2 and succeeds on attempt 3 (so the helper switched to the fallback model),
the run's `model` variable stays `gemini-2.5-flash`, and every attempt of any
later generation call in the same run — including its attempts 1 and 2 — is
issued with the fallback model rather than restarting from the primary
model. -/
theorem model_leaks_across_calls (A B : Type)
    (fn1 : Nat → String → Except String A) (v : A) (d1 d2 : Nat)
    (h12 : ∀ i m, 1 ≤ i → i < 3 → (fn1 i m).isOk = false)
    (h3 : ∀ m, fn1 3 m = Except.ok v) :
    (Index.retryWithBackoff fn1 3 d1 Index.primaryModel).model = Index.fallbackModel ∧
    (∀ (fn2 : Nat → String → Except String B) (m : String),
      m ∈ (Index.retryWithBackoff fn2 3 d2
            (Index.retryWithBackoff fn1 3 d1 Index.primaryModel).model).modelsUsed →
      m = Index.fallbackModel) := by
  have hmodel : (Index.retryWithBackoff fn1 3 d1 Index.primaryModel).model =
      Index.fallbackModel := by
    have hf1 := h12 1 Index.primaryModel (by omega) (by omega)
    obtain ⟨e1, he1⟩ : ∃ e1, fn1 1 Index.primaryModel = Except.error e1 := by
      cases hfn : fn1 1 Index.primaryModel with
      | ok a => rw [hfn] at hf1; simp [Except.isOk, Except.toBool] at hf1
      | error err => exact ⟨err, rfl⟩
    have hf2 := h12 2 Index.primaryModel (by omega) (by omega)
    obtain ⟨e2, he2⟩ : ∃ e2, fn1 2 Index.primaryModel = Except.error e2 := by
      cases hfn : fn1 2 Index.primaryModel with
      | ok a => rw [hfn] at hf2; simp [Except.isOk, Except.toBool] at hf2
      | error err => exact ⟨err, rfl⟩
    simp [Index.retryWithBackoff, Index.retryGo, he1, he2, h3, Index.fallbackModel]
  refine ⟨hmodel, ?_⟩
  intro fn2 m hm
  rw [hmodel] at hm
  exact Index_retryGo_models_const B fn2 3 4 1 m hm

/-- C9 witness: a first call failing twice then succeeding leaves the model
set to `gemini-2.5-flash`, and a later always-succeeding call issues its
first attempt with that fallback model. -/
theorem model_leaks_across_calls_witness :
    (Index.retryWithBackoff (fun i _ => if i < 3 then Except.error "e" else Except.ok 1)
      3 30000 Index.primaryModel).model = Index.fallbackModel ∧
    ∀ m, m ∈ (Index.retryWithBackoff (fun _ _ => Except.ok 2) 3 30000
      (Index.retryWithBackoff (fun i _ => if i < 3 then Except.error "e" else Except.ok 1)
        3 30000 Index.primaryModel).model).modelsUsed → m = Index.fallbackModel := by
  have h := model_leaks_across_calls Nat Nat
    (fun i _ => if i < 3 then Except.error "e" else Except.ok 1) 1 30000 30000
    (fun i m h1 h2 => by simp [h2, Except.isOk, Except.toBool])
    (fun m => by simp)
  exact ⟨h.1, fun m hm => h.2 (fun _ _ => Except.ok 2) m hm⟩

/-- C3 counterexample: a comment-mention notification whose referenced comment
is missing passes the filter and is still mapped to a context bundle — with a
null triggering text — rather than being excluded from `parsedNotifications`. -/
theorem correlator_null_bundle_counterexample :
    Post.notificationKeep 0 0
      ⟨1, "new_comment_in_entry", 0, 0,
       some ⟨7, "alice", "2025-01-01 10:00:00", 0, "hello", ["gielda"], none, none⟩,
       none⟩ = true ∧
    (Post.parsedNotifications (fun _ => []) 0 0
      [⟨1, "new_comment_in_entry", 0, 0,
        some ⟨7, "alice", "2025-01-01 10:00:00", 0, "hello", ["gielda"], none, none⟩,
        none⟩]).map (fun b => b.questionToAnswer) = [none] := by
  exact ⟨rfl, rfl⟩

/-- C3 (amended): every notification passing the filter produces exactly one
context bundle (none is excluded), and a bundle's triggering text is null
precisely when its notification is a comment-mention whose referenced comment
is missing; post-mentions, and comment-mentions whose comment is present,
always carry a non-null triggering text. -/
theorem correlator_bundle_null_iff (commentsFor : Nat → List Post.WComment)
    (off cutoff : Int) (ns : List Post.WNotification) :
    ((Post.parsedNotifications commentsFor off cutoff ns).length =
      (Post.filteredNotifications off cutoff ns).length) ∧
    ∀ n ∈ Post.filteredNotifications off cutoff ns,
      ((Post.parseNotification commentsFor n).questionToAnswer = none ↔
        (n.type = "new_comment_in_entry" ∧ n.comment = none)) := by
  constructor
  · simp [Post.parsedNotifications]
  · intro n hn
    have hk : Post.notificationKeep off cutoff n = true :=
      (List.mem_filter.mp hn).2
    by_cases hA : n.type = "new_entry"
    · constructor
      · intro hq
        exfalso
        simp [Post.parseNotification, hA] at hq
      · rintro ⟨hc, _⟩
        rw [hA] at hc
        exact absurd hc (by decide)
    · by_cases hB : n.type = "new_comment_in_entry"
      · simp [Post.parseNotification, hB, hA]
      · exfalso
        simp [Post.notificationKeep, hA, hB] at hk

/-- C3 witness: applying the amended statement to a concrete unread, tagged,
recent post-mention notification shows its bundle's triggering text is
non-null. -/
theorem correlator_bundle_null_iff_witness :
    ((Post.parseNotification (fun _ => [])
      ⟨2, "new_entry", 5, 0,
       some ⟨9, "bob", "2025-01-02 11:00:00", 3, "question", ["gielda"], none, none⟩,
       none⟩).questionToAnswer = none ↔
      (("new_entry" : String) = "new_comment_in_entry" ∧
        (none : Option Post.WComment) = none)) :=
  (correlator_bundle_null_iff (fun _ => []) 0 0
    [⟨2, "new_entry", 5, 0,
      some ⟨9, "bob", "2025-01-02 11:00:00", 3, "question", ["gielda"], none, none⟩,
      none⟩]).2
    ⟨2, "new_entry", 5, 0,
      some ⟨9, "bob", "2025-01-02 11:00:00", 3, "question", ["gielda"], none, none⟩,
      none⟩ (by decide)

/-- C5 counterexample: on a response whose declared array-of-objects field
contains a non-object element (here the number 7), `validateSchema` does not
return its collected error list: the `field in item` check throws a TypeError,
so the claim that the validator never throws and returns an error list for
every data value fails. -/
theorem validate_schema_throws_counterexample :
    Index.validateSchema
      (Index.JVal.obj [("sentiment", Index.JVal.str "50"), ("summary", Index.JVal.str "ok"),
        ("mostDiscussed", Index.JVal.arr [Index.JVal.num 7]),
        ("topQuotes", Index.JVal.arr [])])
      Index.sentimentSchema = Except.error (Index.typeErrorIn "asset") := rfl

theorem jsIn_of_nonNullObject (f : String) (v : Index.JVal)
    (h : Index.isNonNullObject v = true) :
    Index.jsIn f v = Except.ok (Index.hasJsField f v) := by
  cases v <;> simp_all [Index.isNonNullObject, Index.jsTypeof, Index.isJsNull, Index.jsIn]

theorem badElem_eq (v : Index.JVal) :
    (Index.jsTypeof v != "object" || Index.isJsNull v) = !Index.isNonNullObject v := by
  cases v <;> rfl

theorem nonObjects_filter_eq_nil (xs : List Index.JVal) :
    (xs.filter (fun item => Index.jsTypeof item != "object" || Index.isJsNull item) = []) ↔
      xs.all Index.isNonNullObject = true := by
  rw [List.filter_eq_nil_iff, List.all_eq_true]
  constructor
  · intro h x hx
    have hb := h x hx
    rw [badElem_eq] at hb
    simpa using hb
  · intro h x hx
    rw [badElem_eq, h x hx]
    simp

theorem checkSubFields_ok (key : String) (index : Nat) (item : Index.JVal)
    (h : Index.isNonNullObject item = true) (rf : List String) :
    ∃ es, Index.checkSubFields key index item rf = Except.ok es ∧
      (es = [] ↔ rf.all (fun f => Index.hasJsField f item) = true) := by
  induction rf with
  | nil => exact ⟨[], rfl, by simp⟩
  | cons f rest ih =>
    obtain ⟨es, hes, hiff⟩ := ih
    simp only [Index.checkSubFields]
    rw [jsIn_of_nonNullObject f item h]
    dsimp only
    rw [hes]
    dsimp only
    by_cases hf : Index.hasJsField f item = true
    · rw [if_pos hf]
      exact ⟨es, rfl, by simp [List.all_cons, hf, hiff]⟩
    · rw [if_neg hf]
      refine ⟨_ :: es, rfl, ?_⟩
      simp [List.all_cons, hf]

theorem checkItems_ok (key : String) (rf : List String) (index : Nat)
    (xs : List Index.JVal) (hxs : ∀ x ∈ xs, Index.isNonNullObject x = true) :
    ∃ es, Index.checkItems key rf index xs = Except.ok es ∧
      (es = [] ↔ xs.all (fun item => rf.all (fun f => Index.hasJsField f item)) = true) := by
  induction xs generalizing index with
  | nil => exact ⟨[], rfl, by simp⟩
  | cons x rest ih =>
    obtain ⟨es1, hes1, hiff1⟩ :=
      checkSubFields_ok key index x (hxs x (List.mem_cons_self x rest)) rf
    obtain ⟨es2, hes2, hiff2⟩ := ih (index + 1) (fun y hy => hxs y (List.mem_cons_of_mem x hy))
    simp only [Index.checkItems]
    rw [hes1]
    dsimp only
    rw [hes2]
    dsimp only
    refine ⟨es1 ++ es2, rfl, ?_⟩
    simp [List.append_eq_nil, hiff1, hiff2, List.all_cons]

theorem isJsArray_exists (v : Index.JVal) (h : Index.isJsArray v = true) :
    ∃ xs, v = Index.JVal.arr xs := by
  cases v with
  | arr xs => exact ⟨xs, rfl⟩
  | str s => exact absurd h (by simp [Index.isJsArray])
  | num n => exact absurd h (by simp [Index.isJsArray])
  | bool b => exact absurd h (by simp [Index.isJsArray])
  | null => exact absurd h (by simp [Index.isJsArray])
  | obj fields => exact absurd h (by simp [Index.isJsArray])

theorem all_and_left_true {α : Type} (xs : List α) (p q : α → Bool) (h : xs.all p = true) :
    xs.all (fun x => p x && q x) = xs.all q := by
  induction xs with
  | nil => rfl
  | cons x rest ih =>
    simp only [List.all_cons, Bool.and_eq_true] at h
    simp [List.all_cons, h.1, ih h.2]

theorem all_and_left_false {α : Type} (xs : List α) (p q : α → Bool) (h : xs.all p = false) :
    xs.all (fun x => p x && q x) = false := by
  rw [Bool.eq_false_iff] at h ⊢
  intro hc
  apply h
  rw [List.all_eq_true] at hc ⊢
  intro x hx
  have hx2 := hc x hx
  rw [Bool.and_eq_true] at hx2
  exact hx2.1

theorem checkEntry_ok (fs : List (String × Index.JVal)) (key : String)
    (config : Index.SchemaConfig)
    (hp : (config.jsType != "array-of-objects" || config.reqFields.isEmpty ||
      !Index.isJsArray (Index.jsGet (Index.JVal.obj fs) key) ||
      (Index.jsElems (Index.jsGet (Index.JVal.obj fs) key)).all Index.isNonNullObject) = true) :
    ∃ es, Index.checkEntry (Index.JVal.obj fs) key config = Except.ok es ∧
      (es = [] ↔ Index.fieldConforms (Index.JVal.obj fs) key config = true) := by
  cases hpres : Index.hasJsField key (Index.JVal.obj fs) with
  | false =>
    refine ⟨["Missing field: " ++ key], ?_, ?_⟩
    · simp [Index.checkEntry, Index.jsIn, hpres]
    · simp [Index.fieldConforms, hpres]
  | true =>
    by_cases hta : config.jsType = "array-of-objects"
    · have hts : config.jsType ≠ "string" := by rw [hta]; decide
      cases hvarr : Index.isJsArray (Index.jsGet (Index.JVal.obj fs) key) with
      | false =>
        refine ⟨["Field " ++ key ++ " should be array, got " ++
            Index.jsTypeof (Index.jsGet (Index.JVal.obj fs) key)], ?_, ?_⟩
        · simp [Index.checkEntry, Index.jsIn, hpres, hta, hts, hvarr]
        · simp [Index.fieldConforms, hpres, hta, hts, hvarr]
      | true =>
        obtain ⟨xs, hxs⟩ := isJsArray_exists _ hvarr
        cases hall : xs.all Index.isNonNullObject with
        | true =>
          have hfilter : xs.filter (fun item => Index.jsTypeof item != "object" ||
              Index.isJsNull item) = [] := (nonObjects_filter_eq_nil xs).mpr hall
          by_cases hrf : config.reqFields = []
          · refine ⟨[], ?_, ?_⟩
            · simp [Index.checkEntry, Index.jsIn, Index.isJsArray, hpres, hta, hts, hxs,
                hfilter, hrf]
            · simp [Index.fieldConforms, Index.jsElems, Index.isJsArray, hpres, hta, hts,
                hxs, hrf, hall]
          · obtain ⟨es, hes, hiff⟩ := checkItems_ok key config.reqFields 0 xs
              (fun x hx => List.all_eq_true.mp hall x hx)
            refine ⟨es, ?_, ?_⟩
            · simp [Index.checkEntry, Index.jsIn, Index.isJsArray, hpres, hta, hts, hxs,
                hfilter, hrf, hes, List.length_pos]
            · rw [hiff]
              have hcong := all_and_left_true xs Index.isNonNullObject
                (fun item => config.reqFields.all (fun f => Index.hasJsField f item)) hall
              simp [Index.fieldConforms, Index.jsElems, Index.isJsArray, hpres, hta, hts,
                hxs, hcong]
        | false =>
          have hrfnil : config.reqFields = [] := by
            rw [hta, hxs] at hp
            simp [Index.jsElems, Index.isJsArray, hall] at hp
            exact hp
          have hfilterne : xs.filter (fun item => Index.jsTypeof item != "object" ||
              Index.isJsNull item) ≠ [] := by
            intro hc
            rw [(nonObjects_filter_eq_nil xs).mp hc] at hall
            cases hall
          refine ⟨["Field " ++ key ++
              " should be array of objects, but contains non-object elements"], ?_, ?_⟩
          · simp [Index.checkEntry, Index.jsIn, Index.isJsArray, hpres, hta, hts, hxs,
              hrfnil, List.length_pos, hfilterne]
          · have hbad := all_and_left_false xs Index.isNonNullObject
              (fun item => config.reqFields.all (fun f => Index.hasJsField f item)) hall
            simp [Index.fieldConforms, Index.jsElems, Index.isJsArray, hpres, hta, hts,
              hxs, hbad]
    · by_cases hts : config.jsType = "string"
      · by_cases hvty : Index.jsTypeof (Index.jsGet (Index.JVal.obj fs) key) = "string"
        · refine ⟨[], ?_, ?_⟩
          · simp [Index.checkEntry, Index.jsIn, hpres, hts, hta, hvty]
          · simp [Index.fieldConforms, hpres, hts, hta, hvty]
        · refine ⟨["Field " ++ key ++ " should be string, got " ++
              Index.jsTypeof (Index.jsGet (Index.JVal.obj fs) key)], ?_, ?_⟩
          · simp [Index.checkEntry, Index.jsIn, hpres, hts, hta, hvty]
          · simp [Index.fieldConforms, hpres, hts, hta, hvty]
      · refine ⟨[], ?_, ?_⟩
        · simp [Index.checkEntry, Index.jsIn, hpres, hts, hta]
        · simp [Index.fieldConforms, hpres, hts, hta]

/-- C5 (amended): for object-valued data satisfying the proviso that every
declared array-of-objects field with a nonempty required-sub-field list, when
present as an array, holds only non-null objects, `validateSchema` returns a
collected error list without throwing, and that list is empty exactly when the
data conforms to the declared shape (every declared field present, string
fields string-typed, array-of-objects fields arrays of non-null objects each
containing every listed sub-field). Outside the proviso the validator can
throw a TypeError instead of reporting, as the counterexample shows. -/
theorem validate_schema_conformance (fs : List (String × Index.JVal))
    (schema : List (String × Index.SchemaConfig))
    (hp : Index.elementsProviso (Index.JVal.obj fs) schema = true) :
    ∃ errs, Index.validateSchema (Index.JVal.obj fs) schema = Except.ok errs ∧
      (errs = [] ↔ Index.conformsToSchema (Index.JVal.obj fs) schema = true) := by
  induction schema with
  | nil => exact ⟨[], rfl, by simp [Index.conformsToSchema]⟩
  | cons kc rest ih =>
    obtain ⟨key, config⟩ := kc
    simp only [Index.elementsProviso, List.all_cons, Bool.and_eq_true] at hp
    obtain ⟨es1, hes1, hiff1⟩ := checkEntry_ok fs key config hp.1
    obtain ⟨errs2, hes2, hiff2⟩ := ih hp.2
    refine ⟨es1 ++ errs2, ?_, ?_⟩
    · simp only [Index.validateSchema]
      rw [hes1]
      dsimp only
      rw [hes2]
    · simp [List.append_eq_nil, hiff1, hiff2, Index.conformsToSchema, List.all_cons]

/-- C5 witness: on a concrete conformant object the amended statement yields
the validator's empty error list. -/
theorem validate_schema_conformance_witness :
    ∃ errs, Index.validateSchema (Index.JVal.obj [("sentiment", Index.JVal.str "55")])
        [("sentiment", Index.SchemaConfig.plain "string")] = Except.ok errs ∧
      (errs = [] ↔ Index.conformsToSchema
        (Index.JVal.obj [("sentiment", Index.JVal.str "55")])
        [("sentiment", Index.SchemaConfig.plain "string")] = true) :=
  validate_schema_conformance [("sentiment", Index.JVal.str "55")]
    [("sentiment", Index.SchemaConfig.plain "string")] rfl

/-- C10: schema validation only requires the `sentiment` field to be
string-typed, so the concrete response `nanResponse` (sentiment "bullish")
passes `sentimentSchema` validation with no errors, yet `parseInt` of its
sentiment is NaN (`none`), and that NaN is exactly what the run stores in the
persisted sentiment attribute and feeds into the needle-angle computation,
which then also yields NaN. -/
theorem sentiment_nan_flows_through :
    Index.validateSchema Index.nanResponse Index.sentimentSchema = Except.ok [] ∧
    Index.storedSentiment Index.nanResponse = none ∧
    Index.needleAngleDeg (Index.storedSentiment Index.nanResponse) = none :=
  ⟨rfl, rfl, rfl⟩

/-! ## C8: cleanJsonResponse is insensitive to markdown code fencing -/

theorem dropWhile_idem {α : Type} (f : α → Bool) (l : List α) :
    (l.dropWhile f).dropWhile f = l.dropWhile f := by
  induction l with
  | nil => rfl
  | cons a t ih =>
    by_cases h : f a = true
    · simp [List.dropWhile_cons, h, ih]
    · simp [List.dropWhile_cons, h]

theorem dropWhile_right_trim (x : List Char) (h : x.dropWhile isJsWs = x) :
    ((x.reverse.dropWhile isJsWs).reverse).dropWhile isJsWs =
      (x.reverse.dropWhile isJsWs).reverse := by
  cases x with
  | nil => rfl
  | cons a x' =>
    cases hfa : isJsWs a with
    | true =>
      exfalso
      rw [List.dropWhile_cons, if_pos hfa] at h
      have hsub := (@List.dropWhile_suffix Char x' isJsWs).sublist
      have hle := hsub.length_le
      rw [h] at hle
      simp at hle
    | false =>
      cases hs : (a :: x').reverse.dropWhile isJsWs with
      | nil => simp [hs]
      | cons b bs =>
        have hsuf : b :: bs <:+ x'.reverse ++ [a] := by
          have hq := @List.dropWhile_suffix Char (a :: x').reverse isJsWs
          rw [hs] at hq
          simpa [List.reverse_cons] using hq
        obtain ⟨t, ht⟩ := hsuf
        have hrev : (b :: bs).reverse ++ t.reverse = a :: x' := by
          have hc := congrArg List.reverse ht
          simpa [List.reverse_append, List.reverse_cons] using hc
        cases hrv : (b :: bs).reverse with
        | nil => simp at hrv
        | cons c cs =>
          rw [hrv] at hrev
          have hca : c = a := by
            have hr2 := hrev
            simp only [List.cons_append, List.cons.injEq] at hr2
            exact hr2.1
          subst hca
          rw [List.dropWhile_cons, if_neg (by simp [hfa])]

theorem jsTrim_idem (l : List Char) : jsTrim (jsTrim l) = jsTrim l := by
  have hy := dropWhile_right_trim (l.dropWhile isJsWs) (dropWhile_idem isJsWs l)
  unfold jsTrim
  rw [hy, List.reverse_reverse, dropWhile_idem]

theorem jsTrim_cons_ws (c : Char) (l : List Char) (h : isJsWs c = true) :
    jsTrim (c :: l) = jsTrim l := by
  simp [jsTrim, List.dropWhile_cons, h]

theorem jsTrim_append_ws (c : Char) (l : List Char) (h : isJsWs c = true) :
    jsTrim (l ++ [c]) = jsTrim l := by
  induction l with
  | nil => simp [jsTrim, List.dropWhile_cons, h]
  | cons a l' ih =>
    cases hfa : isJsWs a with
    | true =>
      rw [List.cons_append, jsTrim_cons_ws a _ hfa, jsTrim_cons_ws a _ hfa]
      exact ih
    | false =>
      simp [jsTrim, List.dropWhile_cons, hfa, h, List.reverse_append]

theorem jsTrim_eq_self_bounds (l : List Char)
    (h1 : ∀ c, l.head? = some c → isJsWs c = false)
    (h2 : ∀ c, l.getLast? = some c → isJsWs c = false) : jsTrim l = l := by
  cases l with
  | nil => rfl
  | cons a t =>
    have ha : isJsWs a = false := h1 a rfl
    unfold jsTrim
    rw [List.dropWhile_cons, if_neg (by simp [ha])]
    cases hr : (a :: t).reverse with
    | nil => simp at hr
    | cons b bs =>
      have hb : isJsWs b = false := by
        apply h2
        rw [← List.head?_reverse, hr]
        rfl
      rw [List.dropWhile_cons, if_neg (by simp [hb])]
      have h3 := congrArg List.reverse hr
      rw [List.reverse_reverse] at h3
      exact h3.symm

theorem isPrefixOf_append_self (p t : List Char) : p.isPrefixOf (p ++ t) = true := by
  induction p with
  | nil => simp [List.isPrefixOf]
  | cons a p' ih => simp [List.isPrefixOf, ih]

theorem isPrefixOf_of_append_left (p q t : List Char)
    (h : (p ++ q).isPrefixOf t = true) : p.isPrefixOf t = true := by
  induction p generalizing t with
  | nil => simp [List.isPrefixOf]
  | cons a p' ih =>
    cases t with
    | nil => simp [List.isPrefixOf] at h
    | cons b t' =>
      simp only [List.cons_append, List.isPrefixOf, Bool.and_eq_true] at h ⊢
      exact ⟨h.1, ih t' h.2⟩

theorem jsEndsWith_append (t : List Char) : jsEndsWith fenceMark (t ++ fenceMark) = true := by
  unfold jsEndsWith
  rw [List.reverse_append]
  exact isPrefixOf_append_self _ _

theorem take_sub_append (t : List Char) :
    (t ++ fenceMark).take ((t ++ fenceMark).length - 3) = t := by
  have hlen : (t ++ fenceMark).length - 3 = t.length := by
    rw [List.length_append]
    rfl
  rw [hlen, List.take_left]

theorem wrap_getLast (t : List Char) :
    (t ++ ('\n' :: fenceMark)).getLast? = some '`' := by
  rw [← List.head?_reverse, List.reverse_append]
  rfl

/-- C8: JSON extraction is insensitive to markdown code fencing: for any
parser that accepts only fence-free text (as `JSON.parse` does — no JSON value
starts or ends with a backtick fence) and any payload whose trimmed form it
parses, `cleanJsonResponse` yields that same parsed value on the bare payload,
on the payload wrapped in a plain ``` fence, and on the payload wrapped in a
```json fence. -/
theorem clean_json_fencing_idempotent (J : Type)
    (parse : List Char → Except String J)
    (hparse : ∀ t v, parse t = Except.ok v →
      jsStartsWith fenceMark t = false ∧ jsEndsWith fenceMark t = false)
    (s : List Char) (v : J) (hs : parse (jsTrim s) = Except.ok v) :
    cleanJsonResponse parse s = Except.ok v ∧
    cleanJsonResponse parse (wrapFencePlain s) = Except.ok v ∧
    cleanJsonResponse parse (wrapFenceJson s) = Except.ok v := by
  obtain ⟨hnotstart, hnotend⟩ := hparse (jsTrim s) v hs
  have hassoc : '\n' :: (s ++ '\n' :: fenceMark) = (('\n' :: s) ++ ['\n']) ++ fenceMark := by
    simp
  have hends : jsEndsWith fenceMark ('\n' :: (s ++ '\n' :: fenceMark)) = true := by
    rw [hassoc]
    exact jsEndsWith_append _
  have htake : List.take (s.length + (fenceMark.length + 1) - 2)
      ('\n' :: (s ++ '\n' :: fenceMark)) = '\n' :: (s ++ ['\n']) := by
    have hlen : s.length + (fenceMark.length + 1) - 2 = (('\n' :: s) ++ ['\n']).length := by
      have h3 : fenceMark.length = 3 := rfl
      rw [h3]
      simp
    rw [hlen, hassoc, List.take_left]
    simp
  have hfinal : jsTrim ('\n' :: (s ++ ['\n'])) = jsTrim s := by
    rw [jsTrim_cons_ws '\n' _ rfl, jsTrim_append_ws '\n' _ rfl]
  refine ⟨?_, ?_, ?_⟩
  · have hnotjson : jsStartsWith fenceJsonMark (jsTrim s) = false := by
      cases hsj : jsStartsWith fenceJsonMark (jsTrim s) with
      | false => rfl
      | true =>
        exfalso
        have h3 : jsStartsWith fenceMark (jsTrim s) = true :=
          isPrefixOf_of_append_left fenceMark ("json".data) (jsTrim s) hsj
        rw [h3] at hnotstart
        cases hnotstart
    simp [cleanJsonResponse, hnotjson, hnotstart, hnotend, jsTrim_idem, hs]
  · have htrim : jsTrim (wrapFencePlain s) = wrapFencePlain s := by
      apply jsTrim_eq_self_bounds
      · intro c hc
        have hh : (wrapFencePlain s).head? = some '`' := rfl
        rw [hh] at hc
        injection hc with hc'
        rw [← hc']
        rfl
      · intro c hc
        have hh : (wrapFencePlain s).getLast? = some '`' := wrap_getLast _
        rw [hh] at hc
        injection hc with hc'
        rw [← hc']
        rfl
    have hsjson : jsStartsWith fenceJsonMark (wrapFencePlain s) = false := rfl
    have hsplain : jsStartsWith fenceMark (wrapFencePlain s) = true := rfl
    have hdrop : (wrapFencePlain s).drop 3 = ('\n' :: s) ++ ('\n' :: fenceMark) := rfl
    simp [cleanJsonResponse, htrim, hsjson, hsplain, hdrop, hends, htake, hfinal, hs]
  · have htrim : jsTrim (wrapFenceJson s) = wrapFenceJson s := by
      apply jsTrim_eq_self_bounds
      · intro c hc
        have hh : (wrapFenceJson s).head? = some '`' := rfl
        rw [hh] at hc
        injection hc with hc'
        rw [← hc']
        rfl
      · intro c hc
        have hh : (wrapFenceJson s).getLast? = some '`' := wrap_getLast _
        rw [hh] at hc
        injection hc with hc'
        rw [← hc']
        rfl
    have hsjson : jsStartsWith fenceJsonMark (wrapFenceJson s) = true := rfl
    have hdrop : (wrapFenceJson s).drop 7 = ('\n' :: s) ++ ('\n' :: fenceMark) := rfl
    simp [cleanJsonResponse, htrim, hsjson, hdrop, hends, htake, hfinal, hs]

/-- C8 witness: instantiating the fencing theorem with the concrete parser
`demoParse` and the payload `" null "` evaluates all three forms to the same
parsed value. -/
theorem clean_json_fencing_idempotent_witness :
    cleanJsonResponse demoParse " null ".data = Except.ok () ∧
    cleanJsonResponse demoParse (wrapFencePlain " null ".data) = Except.ok () ∧
    cleanJsonResponse demoParse (wrapFenceJson " null ".data) = Except.ok () :=
  clean_json_fencing_idempotent Unit demoParse
    (fun t v h => by
      by_cases ht : t = "null".data
      · subst ht
        exact ⟨rfl, rfl⟩
      · exfalso
        simp [demoParse, ht] at h)
    " null ".data () rfl

/-! ## C1: the window scanner collects exactly the in-window entries -/

theorem scanPageEntries_eq (off cutoff : Int) (p : List Index.Entry) :
    Index.scanPageEntries off cutoff p =
      (p.takeWhile (Index.entryInWindow off cutoff),
       p.all (Index.entryInWindow off cutoff)) := by
  induction p with
  | nil => rfl
  | cons e rest ih =>
    simp only [Index.scanPageEntries]
    cases he : Index.entryInWindow off cutoff e with
    | true => simp [List.takeWhile_cons, List.all_cons, he, ih]
    | false => simp [List.takeWhile_cons, List.all_cons, he]

theorem scanBatchPages_append (off cutoff : Int) (xs ys : List (List Index.Entry)) :
    Index.scanBatchPages off cutoff (xs ++ ys) =
      ((Index.scanBatchPages off cutoff xs).1 ++
        (if (Index.scanBatchPages off cutoff xs).2 then
          (Index.scanBatchPages off cutoff ys).1 else []),
       (Index.scanBatchPages off cutoff xs).2 && (Index.scanBatchPages off cutoff ys).2) := by
  induction xs with
  | nil => simp [Index.scanBatchPages]
  | cons p xs' ih =>
    simp only [List.cons_append, Index.scanBatchPages]
    cases hp : p.isEmpty with
    | true => simp [hp]
    | false =>
      cases hr : (Index.scanPageEntries off cutoff p).2 with
      | true =>
        cases hxs : (Index.scanBatchPages off cutoff xs').2 with
        | true => simp [hp, hr, ih, hxs, List.append_assoc]
        | false => simp [hp, hr, ih, hxs, List.append_assoc]
      | false => simp [hp, hr]

theorem scanBatchPages_replicate_succ (off cutoff : Int) (k : Nat) :
    Index.scanBatchPages off cutoff (List.replicate (k + 1) ([] : List Index.Entry)) =
      ([], false) := by
  rw [List.replicate_succ]
  simp [Index.scanBatchPages]

theorem range_map_getD {α : Type} (B : Nat) (d : List α) (pad : α) :
    (List.range B).map (fun i => d.getD i pad) = d.take B ++ List.replicate (B - d.length) pad := by
  induction B with
  | zero => simp
  | succ B ih =>
    rw [List.range_succ, List.map_append, ih]
    simp only [List.map_cons, List.map_nil]
    by_cases hB : B < d.length
    · have hgd : d.getD B pad = d[B] := by
        rw [List.getD_eq_getElem?_getD, List.getElem?_eq_getElem hB]
        rfl
      have hr0 : B + 1 - d.length = 0 := by omega
      have hr0' : B - d.length = 0 := by omega
      rw [hr0, hr0', hgd, List.take_succ, List.getElem?_eq_getElem hB]
      simp
    · have hgd : d.getD B pad = pad := List.getD_eq_default d pad (by omega)
      have ht1 : d.take (B + 1) = d := List.take_of_length_le (by omega)
      have ht2 : d.take B = d := List.take_of_length_le (by omega)
      have hrep : B + 1 - d.length = (B - d.length) + 1 := by omega
      rw [hgd, ht1, ht2, hrep, List.replicate_succ']
      simp

theorem getD_drop {α : Type} (l : List α) (k i : Nat) (d : α) :
    (l.drop k).getD i d = l.getD (k + i) d := by
  rw [List.getD_eq_getElem?_getD, List.getD_eq_getElem?_getD, List.getElem?_drop]

theorem getPage_shift (feed : List (List Index.Entry)) (start i : Nat) (h : 1 ≤ start) :
    Index.getPage feed (start + i) = (feed.drop (start - 1)).getD i [] := by
  unfold Index.getPage
  rw [getD_drop]
  congr 1
  omega

theorem scanLoop_eq (feed : List (List Index.Entry)) (off cutoff : Int) (B : Nat)
    (hB : 1 ≤ B) : ∀ fuel start, 1 ≤ start → (feed.drop (start - 1)).length < fuel →
    Index.scanLoop feed off cutoff B fuel start =
      (Index.scanBatchPages off cutoff (feed.drop (start - 1))).1 := by
  intro fuel
  induction fuel with
  | zero =>
    intro start h1 h2
    omega
  | succ fuel ih =>
    intro start h1 h2
    simp only [Index.scanLoop]
    have hpages : (List.range B).map (fun i => Index.getPage feed (start + i)) =
        (feed.drop (start - 1)).take B ++
          List.replicate (B - (feed.drop (start - 1)).length) [] := by
      rw [← range_map_getD]
      apply List.map_congr_left
      intro i _
      exact getPage_shift feed start i h1
    rw [hpages]
    by_cases hlen : B ≤ (feed.drop (start - 1)).length
    · have hrep : B - (feed.drop (start - 1)).length = 0 := by omega
      rw [hrep, List.replicate_zero, List.append_nil]
      have hsplit : feed.drop (start - 1) =
          (feed.drop (start - 1)).take B ++ (feed.drop (start - 1)).drop B :=
        (List.take_append_drop _ _).symm
      cases hc : (Index.scanBatchPages off cutoff ((feed.drop (start - 1)).take B)).2 with
      | true =>
        rw [if_pos rfl]
        have hdd : feed.drop (start + B - 1) = (feed.drop (start - 1)).drop B := by
          rw [List.drop_drop]
          congr 1
          omega
        have hlt : (feed.drop (start + B - 1)).length < fuel := by
          have e1 : (feed.drop (start + B - 1)).length = feed.length - (start + B - 1) :=
            List.length_drop _ _
          have e2 : (feed.drop (start - 1)).length = feed.length - (start - 1) :=
            List.length_drop _ _
          rw [e2] at h2 hlen
          rw [e1]
          omega
        have hrec := ih (start + B) (by omega) hlt
        rw [hrec, hdd]
        conv_rhs => rw [hsplit]
        rw [scanBatchPages_append]
        simp [hc]
      | false =>
        rw [if_neg (by simp)]
        conv_rhs => rw [hsplit]
        rw [scanBatchPages_append]
        simp [hc]
    · have htake : (feed.drop (start - 1)).take B = feed.drop (start - 1) :=
        List.take_of_length_le (by omega)
      obtain ⟨k, hk⟩ : ∃ k, B - (feed.drop (start - 1)).length = k + 1 :=
        ⟨B - (feed.drop (start - 1)).length - 1, by omega⟩
      rw [htake, hk, scanBatchPages_append, scanBatchPages_replicate_succ]
      simp

theorem paginateGo_fuel (limit : Nat) (hL : 1 ≤ limit) :
    ∀ fuel fuel' (items : List Index.Entry), items.length ≤ fuel → items.length ≤ fuel' →
    Index.paginateGo limit fuel items = Index.paginateGo limit fuel' items := by
  intro fuel
  induction fuel with
  | zero =>
    intro fuel' items h h'
    have hnil : items = [] := List.length_eq_zero.mp (Nat.le_zero.mp h)
    subst hnil
    cases fuel' <;> rfl
  | succ fuel ih =>
    intro fuel' items h h'
    cases items with
    | nil => cases fuel' <;> rfl
    | cons e rest =>
      cases fuel' with
      | zero =>
        exfalso
        simp at h'
      | succ fuel'' =>
        simp only [Index.paginateGo]
        congr 1
        apply ih
        · rw [List.length_drop]
          simp only [List.length_cons] at h ⊢
          omega
        · rw [List.length_drop]
          simp only [List.length_cons] at h' ⊢
          omega

theorem paginate_cons (limit : Nat) (hL : 1 ≤ limit) (e : Index.Entry)
    (rest : List Index.Entry) :
    Index.paginate limit (e :: rest) =
      (e :: rest).take limit :: Index.paginate limit ((e :: rest).drop limit) := by
  unfold Index.paginate
  simp only [List.length_cons, Index.paginateGo]
  congr 1
  apply paginateGo_fuel limit hL
  · rw [List.length_drop]
    simp only [List.length_cons]
    omega
  · exact Nat.le_refl _

theorem takeWhile_eq_self_of_all {α : Type} (f : α → Bool) (l : List α)
    (h : l.all f = true) : l.takeWhile f = l := by
  induction l with
  | nil => rfl
  | cons x l' ih =>
    rw [List.all_cons, Bool.and_eq_true] at h
    rw [List.takeWhile_cons, if_pos h.1, ih h.2]

theorem takeWhile_append_of_not_all {α : Type} (f : α → Bool) (xs ys : List α)
    (h : xs.all f = false) : (xs ++ ys).takeWhile f = xs.takeWhile f := by
  induction xs with
  | nil => simp at h
  | cons x xs' ih =>
    cases hx : f x with
    | false => simp [List.takeWhile_cons, hx]
    | true =>
      rw [List.all_cons, hx, Bool.true_and] at h
      simp [List.takeWhile_cons, hx, ih h]

theorem filter_eq_takeWhile_of_sorted (off cutoff : Int) (l : List Index.Entry)
    (h : l.Pairwise (fun a b => b.created_at ≤ a.created_at)) :
    l.filter (Index.entryInWindow off cutoff) =
      l.takeWhile (Index.entryInWindow off cutoff) := by
  induction l with
  | nil => rfl
  | cons e rest ih =>
    rw [List.pairwise_cons] at h
    by_cases he : Index.entryInWindow off cutoff e = true
    · simp [List.filter_cons, List.takeWhile_cons, he, ih h.2]
    · have hall : ∀ b ∈ rest, ¬ (Index.entryInWindow off cutoff b = true) := by
        intro b hb hbt
        apply he
        simp only [Index.entryInWindow, decide_eq_true_eq] at hbt ⊢
        have hba := h.1 b hb
        omega
      rw [List.filter_cons, if_neg he, List.takeWhile_cons, if_neg he]
      rw [List.filter_eq_nil_iff]
      exact hall

theorem scanBatchPages_paginate (off cutoff : Int) (L : Nat) (hL : 1 ≤ L) :
    ∀ n (items : List Index.Entry), items.length ≤ n →
    items.Pairwise (fun a b => b.created_at ≤ a.created_at) →
    (Index.scanBatchPages off cutoff (Index.paginate L items)).1 =
      items.filter (Index.entryInWindow off cutoff) := by
  intro n
  induction n with
  | zero =>
    intro items hlen _
    have hnil : items = [] := List.length_eq_zero.mp (Nat.le_zero.mp hlen)
    subst hnil
    rfl
  | succ n ih =>
    intro items hlen hpair
    cases items with
    | nil => rfl
    | cons e rest =>
      rw [paginate_cons L hL]
      simp only [Index.scanBatchPages]
      have hpne : ((e :: rest).take L).isEmpty = false := by
        cases L with
        | zero => omega
        | succ L' => rfl
      rw [if_neg (by simp [hpne])]
      rw [scanPageEntries_eq]
      dsimp only
      cases hall : ((e :: rest).take L).all (Index.entryInWindow off cutoff) with
      | true =>
        rw [if_pos rfl]
        dsimp only
        have hdlen : ((e :: rest).drop L).length ≤ n := by
          rw [List.length_drop]
          simp only [List.length_cons] at hlen ⊢
          omega
        have hdp : ((e :: rest).drop L).Pairwise
            (fun a b => b.created_at ≤ a.created_at) :=
          List.Pairwise.sublist (List.drop_sublist _ _) hpair
        rw [ih ((e :: rest).drop L) hdlen hdp, takeWhile_eq_self_of_all _ _ hall]
        conv_rhs => rw [← List.take_append_drop L (e :: rest)]
        rw [List.filter_append]
        congr 1
        exact (List.filter_eq_self.mpr (List.all_eq_true.mp hall)).symm
      | false =>
        rw [if_neg (by simp)]
        dsimp only
        rw [filter_eq_takeWhile_of_sorted off cutoff _ hpair]
        conv_rhs => rw [← List.take_append_drop L (e :: rest)]
        rw [takeWhile_append_of_not_all _ _ _ hall]

/-- C1: for every feed of items with monotonically non-increasing timestamps
served as pages of any positive size, and any positive batch size, the
sentiment scan loop returns exactly — same elements, same order, hence no
duplicates and no gaps — the items whose normalized instant
(`created_at - polandOffset`) is at or after the cutoff, stopping at the
first strictly older item or at the first empty page. -/
theorem window_scanner_exact (items : List Index.Entry) (off cutoff : Int) (B L : Nat)
    (hB : 1 ≤ B) (hL : 1 ≤ L)
    (hmono : items.Pairwise (fun a b => b.created_at ≤ a.created_at)) :
    Index.recentEntries (Index.paginate L items) off cutoff B =
      items.filter (Index.entryInWindow off cutoff) := by
  unfold Index.recentEntries
  rw [scanLoop_eq (Index.paginate L items) off cutoff B hB
    ((Index.paginate L items).length + 1) 1 (Nat.le_refl 1) (by simp)]
  simp only [Nat.sub_self, List.drop_zero]
  exact scanBatchPages_paginate off cutoff L hL items.length items (Nat.le_refl _) hmono

/-- C1 witness: a concrete three-item monotone feed with page size 2 and
batch size 1 scans to exactly its two in-window items. -/
theorem window_scanner_exact_witness :
    List.Pairwise (fun a b : Index.Entry => b.created_at ≤ a.created_at)
      [⟨10, 0⟩, ⟨5, 1⟩, ⟨1, 2⟩] ∧
    Index.recentEntries (Index.paginate 2 [⟨10, 0⟩, ⟨5, 1⟩, ⟨1, 2⟩]) 0 4 1 =
      ([⟨10, 0⟩, ⟨5, 1⟩, ⟨1, 2⟩] : List Index.Entry).filter (Index.entryInWindow 0 4) :=
  ⟨by decide,
   window_scanner_exact [⟨10, 0⟩, ⟨5, 1⟩, ⟨1, 2⟩] 0 4 1 2 (by decide) (by decide) (by decide)⟩
